import Mathlib

/-!
Verification development for the Hakurei Frontier card-catalog tooling
(`update_cards.py`, `deckmaker.py`): a shallow embedding of the data model
and the operations, together with theorems about the frozen claims.

Python values are modelled by the inductive type `Value`; Python dicts are
modelled as insertion-ordered association lists (`Record`).
-/

set_option maxHeartbeats 1000000

/-- A Python value as it occurs in the card data: `None`, booleans, integers,
strings, lists and dicts.  (Floats do not occur in the modelled fragment.) -/
inductive Value where
  | vnull : Value
  | vbool : Bool → Value
  | vint : Int → Value
  | vstr : String → Value
  | vlist : List Value → Value
  | vdict : List (String × Value) → Value
deriving Repr

mutual

def valueBEq : Value → Value → Bool
  | .vnull, .vnull => true
  | .vbool a, .vbool b => a == b
  | .vint a, .vint b => a == b
  | .vstr a, .vstr b => a == b
  | .vlist a, .vlist b => valueListBEq a b
  | .vdict a, .vdict b => valueDictBEq a b
  | _, _ => false

def valueListBEq : List Value → List Value → Bool
  | [], [] => true
  | a :: as, b :: bs => valueBEq a b && valueListBEq as bs
  | _, _ => false

def valueDictBEq : List (String × Value) → List (String × Value) → Bool
  | [], [] => true
  | (ka, va) :: as, (kb, vb) :: bs => ka == kb && valueBEq va vb && valueDictBEq as bs
  | _, _ => false

end

instance : BEq Value := ⟨valueBEq⟩

-- Structural equality on `Value` is decidable.
mutual

def valueDecEq : (a b : Value) → Decidable (a = b)
  | .vnull, .vnull => .isTrue rfl
  | .vbool a, .vbool b =>
    match decEq a b with
    | .isTrue h => .isTrue (h ▸ rfl)
    | .isFalse h => .isFalse (fun hc => h (Value.vbool.inj hc))
  | .vint a, .vint b =>
    match decEq a b with
    | .isTrue h => .isTrue (h ▸ rfl)
    | .isFalse h => .isFalse (fun hc => h (Value.vint.inj hc))
  | .vstr a, .vstr b =>
    match decEq a b with
    | .isTrue h => .isTrue (h ▸ rfl)
    | .isFalse h => .isFalse (fun hc => h (Value.vstr.inj hc))
  | .vlist a, .vlist b =>
    match valueListDecEq a b with
    | .isTrue h => .isTrue (h ▸ rfl)
    | .isFalse h => .isFalse (fun hc => h (Value.vlist.inj hc))
  | .vdict a, .vdict b =>
    match valueDictDecEq a b with
    | .isTrue h => .isTrue (h ▸ rfl)
    | .isFalse h => .isFalse (fun hc => h (Value.vdict.inj hc))
  | .vnull, .vbool _ => .isFalse (by intro h; cases h)
  | .vnull, .vint _ => .isFalse (by intro h; cases h)
  | .vnull, .vstr _ => .isFalse (by intro h; cases h)
  | .vnull, .vlist _ => .isFalse (by intro h; cases h)
  | .vnull, .vdict _ => .isFalse (by intro h; cases h)
  | .vbool _, .vnull => .isFalse (by intro h; cases h)
  | .vbool _, .vint _ => .isFalse (by intro h; cases h)
  | .vbool _, .vstr _ => .isFalse (by intro h; cases h)
  | .vbool _, .vlist _ => .isFalse (by intro h; cases h)
  | .vbool _, .vdict _ => .isFalse (by intro h; cases h)
  | .vint _, .vnull => .isFalse (by intro h; cases h)
  | .vint _, .vbool _ => .isFalse (by intro h; cases h)
  | .vint _, .vstr _ => .isFalse (by intro h; cases h)
  | .vint _, .vlist _ => .isFalse (by intro h; cases h)
  | .vint _, .vdict _ => .isFalse (by intro h; cases h)
  | .vstr _, .vnull => .isFalse (by intro h; cases h)
  | .vstr _, .vbool _ => .isFalse (by intro h; cases h)
  | .vstr _, .vint _ => .isFalse (by intro h; cases h)
  | .vstr _, .vlist _ => .isFalse (by intro h; cases h)
  | .vstr _, .vdict _ => .isFalse (by intro h; cases h)
  | .vlist _, .vnull => .isFalse (by intro h; cases h)
  | .vlist _, .vbool _ => .isFalse (by intro h; cases h)
  | .vlist _, .vint _ => .isFalse (by intro h; cases h)
  | .vlist _, .vstr _ => .isFalse (by intro h; cases h)
  | .vlist _, .vdict _ => .isFalse (by intro h; cases h)
  | .vdict _, .vnull => .isFalse (by intro h; cases h)
  | .vdict _, .vbool _ => .isFalse (by intro h; cases h)
  | .vdict _, .vint _ => .isFalse (by intro h; cases h)
  | .vdict _, .vstr _ => .isFalse (by intro h; cases h)
  | .vdict _, .vlist _ => .isFalse (by intro h; cases h)

def valueListDecEq : (a b : List Value) → Decidable (a = b)
  | [], [] => .isTrue rfl
  | [], _ :: _ => .isFalse (by intro h; cases h)
  | _ :: _, [] => .isFalse (by intro h; cases h)
  | a :: as, b :: bs =>
    match valueDecEq a b, valueListDecEq as bs with
    | .isTrue h1, .isTrue h2 => .isTrue (by rw [h1, h2])
    | .isFalse h1, _ => .isFalse (by intro h; cases h; exact h1 rfl)
    | _, .isFalse h2 => .isFalse (by intro h; cases h; exact h2 rfl)

def valueDictDecEq : (a b : List (String × Value)) → Decidable (a = b)
  | [], [] => .isTrue rfl
  | [], _ :: _ => .isFalse (by intro h; cases h)
  | _ :: _, [] => .isFalse (by intro h; cases h)
  | (ka, va) :: as, (kb, vb) :: bs =>
    match decEq ka kb, valueDecEq va vb, valueDictDecEq as bs with
    | .isTrue h0, .isTrue h1, .isTrue h2 => .isTrue (by rw [h0, h1, h2])
    | .isFalse h0, _, _ => .isFalse (by intro h; cases h; exact h0 rfl)
    | _, .isFalse h1, _ => .isFalse (by intro h; cases h; exact h1 rfl)
    | _, _, .isFalse h2 => .isFalse (by intro h; cases h; exact h2 rfl)

end

instance : DecidableEq Value := valueDecEq

/-- A Python dict with string keys, in insertion order. -/
abbrev Record := List (String × Value)

/-- `lookupR r k` models `r.get(k)` / `r[k]` membership: the value stored at
the first entry whose key is `k`. -/
def lookupR (r : Record) (k : String) : Option Value :=
  match r with
  | [] => none
  | kv :: rest => if kv.1 = k then some kv.2 else lookupR rest k

/-- `setKey r k v` models `r[k] = v` on a dict: overwrite the existing entry
in place, or append a new entry at the end. -/
def setKey (r : Record) (k : String) (v : Value) : Record :=
  match r with
  | [] => [(k, v)]
  | kv :: rest => if kv.1 = k then (k, v) :: rest else kv :: setKey rest k v

@[simp] theorem lookupR_nil (k : String) : lookupR [] k = none := rfl

@[simp] theorem lookupR_cons (a : String) (b : Value) (r : Record) (k : String) :
    lookupR ((a, b) :: r) k = if a = k then some b else lookupR r k := rfl

theorem lookupR_setKey_self (r : Record) (k : String) (v : Value) :
    lookupR (setKey r k v) k = some v := by
  induction r with
  | nil => simp [setKey]
  | cons kv rest ih =>
    rcases kv with ⟨a, b⟩
    by_cases h : a = k
    · simp [setKey, h]
    · simp [setKey, h, lookupR, ih]

theorem lookupR_setKey_ne (r : Record) (k k' : String) (v : Value) (h : k ≠ k') :
    lookupR (setKey r k v) k' = lookupR r k' := by
  induction r with
  | nil => simp [setKey, lookupR, h]
  | cons kv rest ih =>
    by_cases hk : kv.1 = k
    · subst hk
      simp [setKey, lookupR, h]
    · simp only [setKey, if_neg hk]
      rcases kv with ⟨a, b⟩
      by_cases ha : a = k'
      · simp [lookupR, ha]
      · simp [lookupR, ha, ih]

/-- Python truthiness of a `Value` (`bool(v)` is `false` exactly here). -/
def isFalsy : Value → Bool
  | .vnull => true
  | .vbool b => !b
  | .vint n => n == 0
  | .vstr s => s == ""
  | .vlist l => l.isEmpty
  | .vdict l => l.isEmpty

/-- The emptiness test of `_resolve_references`:
`key not in card or card[key] in (None, "", [], {})`.
(`None`, `""`, `[]` and `{}` are the only values structurally equal to one of
the four sentinels; Python `==` agrees with structural equality on them.) -/
def emptyish : Option Value → Bool
  | none => true
  | some v =>
    decide (v = Value.vnull) || decide (v = Value.vstr "") ||
      decide (v = Value.vlist []) || decide (v = Value.vdict [])

/-! ## Lexical helpers (characters, `str.replace`, comment stripping) -/

/-- The single-quote character (written via its code point). -/
def qc : Char := Char.ofNat 39

/-- ASCII whitespace as matched by the regex class `\s` on this data
(the source text is ASCII; Unicode whitespace is not modelled). -/
def isPySpace (c : Char) : Bool :=
  c = ' ' || c = '\t' || c = '\n' || c = '\r' || c = '\x0b' || c = '\x0c'

/-- The regex class `[\s,]` used by `_normalize_tags`. -/
def isDelimChar (c : Char) : Bool := c = ',' || isPySpace c

/-- The regex class `[A-Za-z_]` (identifier start / `abilityLabel` idents). -/
def isIdentStart (c : Char) : Bool := c.isAlpha || c = '_'

/-- The regex class `[A-Za-z0-9_]` (identifier continuation / `packLinkage`
idents). -/
def isIdentChar (c : Char) : Bool := c.isAlphanum || c = '_'

theorem dropWhile_length_le (p : Char → Bool) (l : List Char) :
    (l.dropWhile p).length ≤ l.length := (List.dropWhile_suffix p).length_le

/-- Python `s.replace(p, r)` on character lists: leftmost, non-overlapping,
scanning left to right.  (Never called with an empty pattern.) -/
def replaceL (p r : List Char) (l : List Char) : List Char :=
  match l with
  | [] => []
  | c :: cs =>
    if p ≠ [] ∧ p.isPrefixOf (c :: cs) then
      r ++ replaceL p r ((c :: cs).drop p.length)
    else c :: replaceL p r cs
termination_by l.length
decreasing_by
  · rename_i h
    have hp : 0 < p.length := List.length_pos.mpr h.1
    simp only [List.length_drop, List.length_cons]
    omega
  · simp

/-- String-level wrapper for `replaceL`. -/
def pyReplace (s p r : String) : String := String.mk (replaceL p.data r.data s.data)

/-- One line is a full-line comment when, after leading spaces/tabs, it starts
with `//` (the regex `(?m)^[ \t]*//.*$` of `CommentPattern`). -/
def isCommentLine (l : List Char) : Bool :=
  "//".data.isPrefixOf (l.dropWhile (fun c => c = ' ' || c = '\t'))

/-- Split a character list at newline characters (the pieces do not contain
the newlines). -/
def splitLines : List Char → List (List Char)
  | [] => [[]]
  | c :: cs =>
    if c = '\n' then [] :: splitLines cs
    else
      match splitLines cs with
      | [] => [[c]]
      | ln :: rest => (c :: ln) :: rest

/-- Re-join lines with newline characters. -/
def joinLines : List (List Char) → List Char
  | [] => []
  | [ln] => ln
  | ln :: rest => ln ++ '\n' :: joinLines rest

/-- `_strip_line_comments`: blank out every full-line `//` comment, leaving
the blank line in place. -/
def stripLineComments (l : List Char) : List Char :=
  joinLines ((splitLines l).map (fun ln => if isCommentLine ln then [] else ln))

/-! ## The regex substitutions of the Lexical Normalizer

`re.sub` scans left to right, replaces each leftmost non-overlapping match
and resumes after the replaced text.  Each pattern below is deterministic
(no backtracking is possible: the greedy sub-parts range over disjoint
character classes), so a direct scanner is a faithful model. -/

/-- `AbilityRefPattern.sub`: rewrite every `abilityLabel.<IDENT>`
(`IDENT` over `[A-Za-z_]+`) into `'<IDENT>'`. -/
def subAbilityRefs (l : List Char) : List Char :=
  match l with
  | [] => []
  | c :: cs =>
    if "abilityLabel.".data.isPrefixOf (c :: cs) then
      let rest := (c :: cs).drop "abilityLabel.".data.length
      let run := rest.takeWhile isIdentStart
      if run.isEmpty then c :: subAbilityRefs cs
      else qc :: run ++ qc :: subAbilityRefs (rest.drop run.length)
    else c :: subAbilityRefs cs
termination_by l.length
decreasing_by
  · simp
  · simp only [List.length_drop, List.length_cons]
    omega
  · simp

/-- `pack_linkage.get(ident, ident)`: the supplied code→string mapping with
fallback to the identifier itself. -/
def plResolve (pl : List (String × String)) (ident : List Char) : List Char :=
  ((pl.lookup (String.mk ident)).getD (String.mk ident)).data

/-- `PackLinkagePattern.sub`: rewrite every `packLinkage.<IDENT>`
(`IDENT` over `[A-Za-z0-9_]+`) into `'<resolved>'`. -/
def subPackLinkage (pl : List (String × String)) (l : List Char) : List Char :=
  match l with
  | [] => []
  | c :: cs =>
    if "packLinkage.".data.isPrefixOf (c :: cs) then
      let rest := (c :: cs).drop "packLinkage.".data.length
      let run := rest.takeWhile isIdentChar
      if run.isEmpty then c :: subPackLinkage pl cs
      else qc :: plResolve pl run ++ qc :: subPackLinkage pl (rest.drop run.length)
    else c :: subPackLinkage pl cs
termination_by l.length
decreasing_by
  · simp
  · simp only [List.length_drop, List.length_cons]
    omega
  · simp

/-- The guarded substitution step of `_parse_card_list`
(`if pack_linkage: cleaned = PackLinkagePattern.sub(..., cleaned)`):
with an empty mapping the text is left entirely unchanged. -/
def packLinkageStep (pl : List (String × String)) (s : String) : String :=
  if pl.isEmpty then s else String.mk (subPackLinkage pl s.data)

/-- The tail of a `KEY_PATTERN` match after the leading delimiter:
`\s*` then `[A-Za-z_][A-Za-z0-9_]*` then `\s*` then `:`.
Returns (leading whitespace, identifier, text after the colon). -/
def tryKeyMatch (l : List Char) : Option (List Char × List Char × List Char) :=
  match l.dropWhile isPySpace with
  | [] => none
  | c :: r1t =>
    if isIdentStart c then
      match ((c :: r1t).drop ((c :: r1t).takeWhile isIdentChar).length).dropWhile
          isPySpace with
      | ':' :: rest => some (l.takeWhile isPySpace, (c :: r1t).takeWhile isIdentChar, rest)
      | _ => none
    else none

theorem isIdentStart_isIdentChar {c : Char} (h : isIdentStart c = true) :
    isIdentChar c = true := by
  rcases (by simpa [isIdentStart] using h) with h' | h'
  · simp [isIdentChar, Char.isAlphanum, h']
  · simp [isIdentChar, h']

theorem tryKeyMatch_shrink (l ws key rest : List Char)
    (h : tryKeyMatch l = some (ws, key, rest)) : rest.length < l.length := by
  unfold tryKeyMatch at h
  split at h
  · exact absurd h (by simp)
  next c r1t heq =>
    split at h
    · rename_i hstart
      split at h
      next rest' heq2 =>
        simp only [Option.some.injEq, Prod.mk.injEq] at h
        obtain ⟨-, -, hrest⟩ := h
        have hcid : isIdentChar c = true := isIdentStart_isIdentChar hstart
        have hkeylen : 0 < ((c :: r1t).takeWhile isIdentChar).length := by
          rw [List.takeWhile_cons, hcid]
          simp
        have h1 : (c :: r1t).length ≤ l.length := by
          rw [← heq]; exact dropWhile_length_le _ _
        have h2 : (':' :: rest').length ≤
            ((c :: r1t).drop ((c :: r1t).takeWhile isIdentChar).length).length := by
          rw [← heq2]; exact dropWhile_length_le _ _
        simp only [List.length_drop, List.length_cons] at h1 h2
        rw [← hrest]
        omega
      next => exact absurd h (by simp)
    · exact absurd h (by simp)

/-- `_quote_object_keys` / `KEY_PATTERN.sub`: wrap in single quotes every bare
identifier that follows `{`, `,` or `[` plus optional whitespace and is
followed by optional whitespace and a colon; the replacement
`f"[prefix][q][key][q]:"` keeps the leading whitespace and drops the
whitespace between the identifier and the colon. -/
def quoteKeys (l : List Char) : List Char :=
  match l with
  | [] => []
  | c :: cs =>
    if c = '{' || c = ',' || c = '[' then
      match hm : tryKeyMatch cs with
      | some (ws, key, rest) => c :: ws ++ qc :: key ++ qc :: ':' :: quoteKeys rest
      | none => c :: quoteKeys cs
    else c :: quoteKeys cs
termination_by l.length
decreasing_by
  · have := tryKeyMatch_shrink _ _ _ _ hm
    simp only [List.length_cons]
    omega
  · simp
  · simp

/-! ## The Literal Evaluator (`_literal_eval` = token replacement + safe parse)

A fueled recursive-descent parser for the Python literal fragment that the
card data uses: strings (both quote styles, common escapes), integers with
unary sign, `True`/`False`/`None`, lists and dicts (trailing commas allowed).
Floats, numeric underscores and non-string dict keys are outside the
modelled fragment and evaluate to an error. -/

/-- Recognised escape sequences inside string literals. -/
def escChar (c : Char) : Option Char :=
  if c = 'n' then some '\n'
  else if c = 't' then some '\t'
  else if c = 'r' then some '\r'
  else if c = '\\' then some '\\'
  else if c = qc then some qc
  else if c = '"' then some '"'
  else none

/-- Body of a string literal after the opening quote: returns the decoded
content and the text after the closing quote.  An unknown escape keeps the
backslash and the escaped character (Python's behaviour). -/
def strBody (quote : Char) : List Char → Option (List Char × List Char)
  | [] => none
  | c :: cs =>
    if c = quote then some ([], cs)
    else if c = '\\' then
      match cs with
      | [] => none
      | e :: cs2 =>
        match escChar e with
        | some ec => (strBody quote cs2).map (fun p => (ec :: p.1, p.2))
        | none => (strBody quote cs2).map (fun p => ('\\' :: e :: p.1, p.2))
    else (strBody quote cs).map (fun p => (c :: p.1, p.2))

/-- Decimal value of a digit run. -/
def digitsVal (l : List Char) : Nat := l.foldl (fun a c => a * 10 + (c.toNat - 48)) 0

/-- Does the text continue with an identifier character (keyword boundary)? -/
def identCont (l : List Char) : Bool :=
  match l with
  | [] => false
  | c :: _ => isIdentChar c

/-- Parser mode: a single value, the items of a list literal, or the items
of a dict literal (with the accumulator in insertion order). -/
inductive ParseMode where
  | val : ParseMode
  | listItems : List Value → ParseMode
  | dictItems : List (String × Value) → ParseMode

/-- The recursive-descent parser, structurally recursive on its fuel. -/
def parseCore (fuel : Nat) (mode : ParseMode) (l : List Char) :
    Except String (Value × List Char) :=
  match fuel with
  | 0 => .error "parser fuel exhausted"
  | fuel + 1 =>
    match mode with
    | .val =>
      match l.dropWhile isPySpace with
      | [] => .error "unexpected end of input"
      | c :: cs =>
        if c = qc || c = '"' then
          match strBody c cs with
          | some (content, rest) => .ok (.vstr (String.mk content), rest)
          | none => .error "unterminated string literal"
        else if c = '[' then parseCore fuel (.listItems []) cs
        else if c = '{' then parseCore fuel (.dictItems []) cs
        else if c = '-' then
          match parseCore fuel .val cs with
          | .ok (.vint n, rest) => .ok (.vint (-n), rest)
          | .ok _ => .error "bad unary minus operand"
          | .error e => .error e
        else if c = '+' then
          match parseCore fuel .val cs with
          | .ok (.vint n, rest) => .ok (.vint n, rest)
          | .ok _ => .error "bad unary plus operand"
          | .error e => .error e
        else if c.isDigit then
          match (c :: cs).dropWhile Char.isDigit with
          | '.' :: _ => .error "float literals are not modelled"
          | rest => .ok (.vint (Int.ofNat (digitsVal ((c :: cs).takeWhile Char.isDigit))), rest)
        else if "None".data.isPrefixOf (c :: cs) && !identCont ((c :: cs).drop 4) then
          .ok (.vnull, (c :: cs).drop 4)
        else if "True".data.isPrefixOf (c :: cs) && !identCont ((c :: cs).drop 4) then
          .ok (.vbool true, (c :: cs).drop 4)
        else if "False".data.isPrefixOf (c :: cs) && !identCont ((c :: cs).drop 5) then
          .ok (.vbool false, (c :: cs).drop 5)
        else .error "malformed literal"
    | .listItems acc =>
      match l.dropWhile isPySpace with
      | [] => .error "unterminated list literal"
      | c :: cs =>
        if c = ']' then .ok (.vlist acc.reverse, cs)
        else
          match parseCore fuel .val (c :: cs) with
          | .error e => .error e
          | .ok (v, rest) =>
            match rest.dropWhile isPySpace with
            | ',' :: rest2 => parseCore fuel (.listItems (v :: acc)) rest2
            | ']' :: rest2 => .ok (.vlist (v :: acc).reverse, rest2)
            | _ => .error "expected comma or closing bracket in list"
    | .dictItems acc =>
      match l.dropWhile isPySpace with
      | [] => .error "unterminated dict literal"
      | c :: cs =>
        if c = '}' then .ok (.vdict acc, cs)
        else
          match parseCore fuel .val (c :: cs) with
          | .error e => .error e
          | .ok (.vstr k, rest) =>
            match rest.dropWhile isPySpace with
            | ':' :: rest2 =>
              match parseCore fuel .val rest2 with
              | .error e => .error e
              | .ok (v, rest3) =>
                match rest3.dropWhile isPySpace with
                | ',' :: rest4 => parseCore fuel (.dictItems (setKey acc k v)) rest4
                | '}' :: rest4 => .ok (.vdict (setKey acc k v), rest4)
                | _ => .error "expected comma or closing brace in dict"
            | _ => .error "expected colon in dict"
          | .ok _ => .error "non-string dict keys are not modelled"

/-- Parse one literal value; returns the value and the remaining text. -/
def parseVal (fuel : Nat) (l : List Char) : Except String (Value × List Char) :=
  parseCore fuel .val l

/-- Parse a text that denotes exactly one literal (surrounding whitespace
allowed, anything else after the literal is an error). -/
def literalParse (l : List Char) : Except String Value :=
  match parseVal (2 * l.length + 2) l with
  | .error e => .error e
  | .ok (v, rest) =>
    if (rest.dropWhile isPySpace).isEmpty then .ok v
    else .error "trailing data after literal"

/-- The textual token translation of `_literal_eval`:
`text.replace("true", "True").replace("false", "False").replace("null", "None")`,
applied to the whole text, string literals included. -/
def repl3 (l : List Char) : List Char :=
  replaceL "null".data "None".data
    (replaceL "false".data "False".data (replaceL "true".data "True".data l))

/-- `_literal_eval`: translate the boolean/null tokens textually, then parse
the result as a literal expression. -/
def literal_eval (s : String) : Except String Value := literalParse (repl3 s.data)

instance {ε α : Type} [DecidableEq ε] [DecidableEq α] : DecidableEq (Except ε α) := fun a b =>
  match a, b with
  | .ok x, .ok y =>
    match decEq x y with
    | .isTrue h => .isTrue (h ▸ rfl)
    | .isFalse h => .isFalse (fun hc => h (Except.ok.inj hc))
  | .error x, .error y =>
    match decEq x y with
    | .isTrue h => .isTrue (h ▸ rfl)
    | .isFalse h => .isFalse (fun hc => h (Except.error.inj hc))
  | .ok _, .error _ => .isFalse (by intro h; cases h)
  | .error _, .ok _ => .isFalse (by intro h; cases h)

/-! ## Reference resolution (`_resolve_references`) -/

/-- `card.get("refer_id")` followed by the `is None` guard: the reference to
follow, if any. -/
def referTarget (c : Record) : Option Value :=
  match lookupR c "refer_id" with
  | none => none
  | some v => if v = .vnull then none else some v

/-- The inner loop of `_resolve_references`: for every field of the base
record except `id`, copy it onto the referring record when the referring
record's own value is absent, `None`, `""`, `[]` or `{}`.  (Values are pure,
so `deepcopy` is the identity here.) -/
def resolveField (c : Record) (kv : String × Value) : Record :=
  if kv.1 = "id" then c
  else if emptyish (lookupR c kv.1) then setKey c kv.1 kv.2
  else c

def resolveOne (base card : Record) : Record := base.foldl resolveField card

/-- `by_id.get(reference)`: the base record with the given id.  The dict
comprehension `{card["id"]: card for card in cards}` keeps, for each id, the
last record carrying it, hence the search from the right. -/
def findBase (st : List Record) (r : Value) : Option Record :=
  st.reverse.find? (fun c => decide (lookupR c "id" = some r))

/-- The loop of `_resolve_references` over the card indices: record `i` is
updated in place, and later lookups see the updated records. -/
def resolveGo (st : List Record) (i : Nat) : Except String (List Record) :=
  if h : i < st.length then
    let card := st.get ⟨i, h⟩
    match referTarget card with
    | none => resolveGo st (i + 1)
    | some r =>
      match findBase st r with
      | none => .error "refer_id not found"
      | some base => resolveGo (st.set i (resolveOne base card)) (i + 1)
  else .ok st
termination_by st.length - i
decreasing_by
  · omega
  · simp only [List.length_set]
    omega

/-- `_resolve_references`: building `by_id` evaluates `card["id"]` for every
card (a `KeyError` if one is missing), then each card with a non-`None`
`refer_id` is backfilled from its base record (an error if there is none). -/
def resolveReferences (cards : List Record) : Except String (List Record) :=
  if cards.all (fun c => (lookupR c "id").isSome) then resolveGo cards 0
  else .error "KeyError: id"

/-! ## Card normalization (`_normalize_tags`, `_normalize_card`) -/

/-- Split a character list at every single delimiter character.
`re.split(r"[\s,]+", raw)` splits at maximal delimiter runs instead, which
differs only by extra empty fragments; `_normalize_tags` drops all empty
fragments right after, so the composite below is the same function. -/
def splitAnyDelim : List Char → List (List Char)
  | [] => [[]]
  | c :: cs =>
    if isDelimChar c then [] :: splitAnyDelim cs
    else
      match splitAnyDelim cs with
      | [] => [[c]]
      | f :: rest => (c :: f) :: rest

/-- `_normalize_tags`: a falsy raw value yields `[]`; a string is split on
whitespace/comma runs with empty fragments dropped.  A truthy non-string
raises `TypeError` inside `re.split`. -/
def normalizeTags (raw : Option Value) : Except String (List String) :=
  match raw with
  | none => .ok []
  | some v =>
    if isFalsy v then .ok []
    else match v with
      | .vstr s => .ok (((splitAnyDelim s.data).map String.mk).filter (fun t => t ≠ ""))
      | _ => .error "TypeError: tag value is not a string"

/-- `(card.get("text") or "").replace("\r\n", "\n").replace("\r", "\n")`:
a falsy value yields `""`; a truthy non-string has no `.replace` and raises. -/
def normText (raw : Option Value) : Except String Value :=
  match raw with
  | none => .ok (.vstr "")
  | some v =>
    if isFalsy v then .ok (.vstr "")
    else match v with
      | .vstr s => .ok (.vstr (pyReplace (pyReplace s "\r\n" "\n") "\r" "\n"))
      | _ => .error "TypeError: text value is not a string"

/-- `card.get("id") or 0` as used in the arithmetic `(... ) + 1`: falsy
values give `0`; `True` counts as `1`; any other non-integer raises
`TypeError` when `1` is added. -/
def idOrZero (raw : Option Value) : Except String Int :=
  match raw with
  | none => .ok 0
  | some v =>
    if isFalsy v then .ok 0
    else match v with
      | .vint n => .ok n
      | .vbool _ => .ok 1
      | _ => .error "TypeError: id value is not an integer"

/-- `card.get("ability", []) or []`: falsy gives `[]`, a list is kept.
(A truthy string would iterate its characters in Python; not modelled.) -/
def abilityCodes (raw : Option Value) : Except String (List Value) :=
  match raw with
  | none => .ok []
  | some v =>
    if isFalsy v then .ok []
    else match v with
      | .vlist l => .ok l
      | _ => .error "TypeError: ability value is not a list"

/-- Decimal digit characters, most significant first, accumulator version
(the fuel bounds the number of digits; `fuel = n` is always enough). -/
def natDigitsGo : Nat → Nat → List Char → List Char
  | 0, _, acc => acc
  | _ + 1, 0, acc => acc
  | fuel + 1, n, acc => natDigitsGo fuel (n / 10) (Char.ofNat (48 + n % 10) :: acc)

/-- Decimal digit characters of `n`, most significant first (empty for `0`;
the zero-padding below renders `0` correctly anyway). -/
def digitChars (n : Nat) : List Char := natDigitsGo n n []

/-- Recursive (non-accumulator) form of `digitChars`, for proofs. -/
def natDigitsRec (n : Nat) : List Char :=
  if n = 0 then [] else natDigitsRec (n / 10) ++ [Char.ofNat (48 + n % 10)]
decreasing_by exact Nat.div_lt_self (Nat.pos_of_ne_zero (by assumption)) (by norm_num)

/-- Left-pad with `'0'` to the given width. -/
def leftPad (w : Nat) (l : List Char) : List Char :=
  List.replicate (w - l.length) '0' ++ l

/-- Python `f"{idx:04d}"`: minimum width 4, zero-padded, the sign counted in
the width. -/
def pad4Int (idx : Int) : List Char :=
  if idx < 0 then '-' :: leftPad 3 (digitChars idx.natAbs)
  else leftPad 4 (digitChars idx.toNat)

/-- The computed image filename `f"sample{(card.get('id') or 0) + 1:04d}.png"`
as a function of the already-incremented index. -/
def imageName (idx : Int) : String :=
  String.mk ("sample".data ++ pad4Int idx ++ ".png".data)

/-- `ability_labels.get(code, code)` (string keys; any other code falls
through to itself). -/
def abilityLabelFor (labels : Record) (code : Value) : Value :=
  match code with
  | .vstr s => (lookupR labels s).getD code
  | _ => code

/-- One entry of the normalized `abilities` list. -/
def abilityEntry (labels : Record) (code : Value) : Value :=
  .vdict [("code", code), ("label", abilityLabelFor labels code)]

/-- `_normalize_card`: build the normalized record, in the insertion order of
the Python dict literal (with `refer_id` inserted after `tags` when the raw
record carries the key, and `abilities` last). -/
def normalizeCard (labels : Record) (card : Record) : Except String Record :=
  match normText (lookupR card "text") with
  | .error e => .error e
  | .ok textV =>
    match idOrZero (lookupR card "id") with
    | .error e => .error e
    | .ok idBase =>
      match normalizeTags (lookupR card "tag") with
      | .error e => .error e
      | .ok tags =>
        match abilityCodes (lookupR card "ability") with
        | .error e => .error e
        | .ok codes =>
          .ok ([("id", (lookupR card "id").getD .vnull),
                ("type", (lookupR card "type").getD .vnull),
                ("name", (lookupR card "nm").getD .vnull),
                ("cost", (lookupR card "cost").getD .vnull),
                ("power", (lookupR card "power").getD .vnull),
                ("rate", (lookupR card "rate").getD .vnull),
                ("packs", (lookupR card "pack").getD (.vlist [])),
                ("text", textV),
                ("qa", (lookupR card "qa").getD (.vlist [])),
                ("illustrator", (lookupR card "illust").getD .vnull),
                ("source", (lookupR card "src").getD .vnull),
                ("source_name", (lookupR card "srcName").getD .vnull),
                ("kirakira", .vbool (!(isFalsy ((lookupR card "kirakira").getD .vnull)))),
                ("image", .vstr (imageName (idBase + 1))),
                ("tags", .vlist (tags.map Value.vstr))]
            ++ (match lookupR card "refer_id" with
                | some rv => [("refer_id", rv)]
                | none => [])
            ++ [("abilities", .vlist (codes.map (abilityEntry labels)))])

/-- `mapM` over `Except`, aborting at the first error (models a Python loop
or comprehension in which an exception aborts the whole call). -/
def exMapM {α β : Type} (f : α → Except String β) : List α → Except String (List β)
  | [] => .ok []
  | a :: as =>
    match f a with
    | .error e => .error e
    | .ok b =>
      match exMapM f as with
      | .error e => .error e
      | .ok bs => .ok (b :: bs)

/-! ## Region extraction (the four `re.search` patterns)

Each pattern is a fixed head (literal words and whitespace classes over
disjoint alphabets, hence no backtracking) followed by a single `DOTALL`
group: lazy (`(.*?)` — text up to the first terminator) or greedy
(`(\[.*\])` — text up to the last terminator).  `re.search` takes the
leftmost position at which the whole pattern matches. -/

/-- Match a literal word at the start of the text. -/
def skipLit (pat : List Char) (l : List Char) : Option (List Char) :=
  if pat.isPrefixOf l then some (l.drop pat.length) else none

/-- `\s+` at the start of the text. -/
def skipWs1 (l : List Char) : Option (List Char) :=
  match l with
  | c :: cs => if isPySpace c then some (cs.dropWhile isPySpace) else none
  | [] => none

/-- `\s*` at the start of the text. -/
def skipWs0 (l : List Char) : List Char := l.dropWhile isPySpace

/-- Text before the first occurrence of the terminator (lazy group). -/
def findTerm (term : List Char) (l : List Char) : Option (List Char) :=
  match l with
  | [] => none
  | c :: cs =>
    if term.isPrefixOf (c :: cs) then some []
    else (findTerm term cs).map (fun g => c :: g)

/-- Text before the last occurrence of the terminator (greedy group). -/
def findTermLast (term : List Char) (l : List Char) : Option (List Char) :=
  match l with
  | [] => none
  | c :: cs =>
    match findTermLast term cs with
    | some g => some (c :: g)
    | none => if term.isPrefixOf (c :: cs) then some [] else none

/-- Head of `const\s+pack\s*=\s*\[(.*?)\];`. -/
def matchPackHead (l : List Char) : Option (List Char) := do
  let l1 ← skipLit "const".data l
  let l2 ← skipWs1 l1
  let l3 ← skipLit "pack".data l2
  let l4 ← skipLit "=".data (skipWs0 l3)
  skipLit "[".data (skipWs0 l4)

/-- Head of `export\s+const\s+abilityLabel\s*=\s*\{(.*?)\};`. -/
def matchAbilityHead (l : List Char) : Option (List Char) := do
  let l1 ← skipLit "export".data l
  let l2 ← skipWs1 l1
  let l3 ← skipLit "const".data l2
  let l4 ← skipWs1 l3
  let l5 ← skipLit "abilityLabel".data l4
  let l6 ← skipLit "=".data (skipWs0 l5)
  skipLit "\x7b".data (skipWs0 l6)

/-- Head of `const\s+packLinkage\s*=\s*\{(.*?)\}`. -/
def matchLinkageHead (l : List Char) : Option (List Char) := do
  let l1 ← skipLit "const".data l
  let l2 ← skipWs1 l1
  let l3 ← skipLit "packLinkage".data l2
  let l4 ← skipLit "=".data (skipWs0 l3)
  skipLit "\x7b".data (skipWs0 l4)

/-- Head of `export\s+const\s+cardData\s*=\s*getCardDataList\s*\((\[.*\])\);`,
consumed up to and including the group's opening bracket. -/
def matchCardHead (l : List Char) : Option (List Char) := do
  let l1 ← skipLit "export".data l
  let l2 ← skipWs1 l1
  let l3 ← skipLit "const".data l2
  let l4 ← skipWs1 l3
  let l5 ← skipLit "cardData".data l4
  let l6 ← skipLit "=".data (skipWs0 l5)
  let l7 ← skipLit "getCardDataList".data (skipWs0 l6)
  skipLit "([".data (skipWs0 l7)

/-- `re.search` for the pack list: group 1 of the first matching position. -/
def searchPack (l : List Char) : Option (List Char) :=
  match l with
  | [] => none
  | _ :: cs =>
    match matchPackHead l with
    | some rest =>
      match findTerm "];".data rest with
      | some g => some g
      | none => searchPack cs
    | none => searchPack cs

/-- `re.search` for the ability labels: group 1 of the first match. -/
def searchAbility (l : List Char) : Option (List Char) :=
  match l with
  | [] => none
  | _ :: cs =>
    match matchAbilityHead l with
    | some rest =>
      match findTerm "\x7d;".data rest with
      | some g => some g
      | none => searchAbility cs
    | none => searchAbility cs

/-- `re.search` for the pack linkage: group 1 of the first match. -/
def searchLinkage (l : List Char) : Option (List Char) :=
  match l with
  | [] => none
  | _ :: cs =>
    match matchLinkageHead l with
    | some rest =>
      match findTerm "\x7d".data rest with
      | some g => some g
      | none => searchLinkage cs
    | none => searchLinkage cs

/-- `re.search` for the card data: group 1 (brackets included) of the first
match; the greedy `.*` reaches to the last `]);`. -/
def searchCardData (l : List Char) : Option (List Char) :=
  match l with
  | [] => none
  | _ :: cs =>
    match matchCardHead l with
    | some rest =>
      match findTermLast "]);".data rest with
      | some g => some ('[' :: g ++ [']'])
      | none => searchCardData cs
    | none => searchCardData cs

/-! ## The parse functions of the Catalog Extractor -/

/-- `_parse_pack_list`: locate the region (fatal if absent), strip comments,
evaluate; the surrounding brackets make the result a list whenever
evaluation succeeds (`list(...)` of anything else is not reached on this
data and is modelled as the corresponding `TypeError`). -/
def parse_pack_list (js : String) : Except String Value :=
  match searchPack js.data with
  | none => .error "Unable to locate pack list in source script."
  | some g =>
    match literal_eval (String.mk (stripLineComments ('[' :: g ++ [']']))) with
    | .error e => .error e
    | .ok (.vlist xs) => .ok (.vlist xs)
    | .ok _ => .error "TypeError: pack value is not a list"

/-- `_parse_ability_labels`: locate the region (fatal if absent), strip
comments, quote bare keys, evaluate, and require a dict. -/
def parse_ability_labels (js : String) : Except String Record :=
  match searchAbility js.data with
  | none => .error "Unable to locate ability labels in source script."
  | some g =>
    match literal_eval (String.mk (quoteKeys (stripLineComments ('{' :: g ++ ['}'])))) with
    | .error e => .error e
    | .ok (.vdict kvs) => .ok kvs
    | .ok _ => .error "TypeError: ability labels are not a dict"

/-- Convert a parsed linkage dict to the code→string mapping.  (The real
values are strings; a non-string value would be stringified by the f-string
at the use site and is not modelled.) -/
def toStrPairs : List (String × Value) → Except String (List (String × String))
  | [] => .ok []
  | (k, .vstr v) :: rest =>
    match toStrPairs rest with
    | .error e => .error e
    | .ok r => .ok ((k, v) :: r)
  | (_, _) :: _ => .error "non-string pack linkage values are not modelled"

/-- `_parse_pack_linkage`: a missing region yields the empty mapping (not an
error); a present region is stripped, quoted and evaluated as a dict. -/
def parse_pack_linkage (js : String) : Except String (List (String × String)) :=
  match searchLinkage js.data with
  | none => .ok []
  | some g =>
    match literal_eval (String.mk (quoteKeys (stripLineComments ('{' :: g ++ ['}'])))) with
    | .error e => .error e
    | .ok (.vdict kvs) => toStrPairs kvs
    | .ok _ => .error "TypeError: pack linkage is not a dict"

/-- Each raw card entry must be a dict (anything else would fail at
`card.get` inside resolution/normalization). -/
def asRecords : List Value → Except String (List Record)
  | [] => .ok []
  | .vdict kvs :: rest =>
    match asRecords rest with
    | .error e => .error e
    | .ok r => .ok (kvs :: r)
  | _ :: _ => .error "card entry is not a dict"

/-- `_parse_card_list`: locate the card data (fatal if absent), strip
comments, rewrite `abilityLabel.X` references, rewrite `packLinkage.X`
references only when the mapping is non-empty, quote bare keys, evaluate,
resolve references, and normalize every record. -/
def parse_card_list (js : String) (ability_labels : Record)
    (pack_linkage : List (String × String)) : Except String (List Record) :=
  match searchCardData js.data with
  | none => .error "Unable to locate card data in source script."
  | some g =>
    let cleaned := subAbilityRefs (stripLineComments g)
    let cleaned := if pack_linkage.isEmpty then cleaned else subPackLinkage pack_linkage cleaned
    match literal_eval (String.mk (quoteKeys cleaned)) with
    | .error e => .error e
    | .ok (.vlist items) =>
      match asRecords items with
      | .error e => .error e
      | .ok raws =>
        match resolveReferences raws with
        | .error e => .error e
        | .ok resolved => exMapM (normalizeCard ability_labels) resolved
    | .ok _ => .error "TypeError: card data is not a list"

/-! ## Image downloading (`_download_images`)

The network is an oracle `fetch : String → FetchResult`; the filesystem is
the list of initially-present filenames plus the files written during the
run.  `placeholderFetches` counts every network request for the placeholder
image. -/

inductive FetchResult where
  | ok : String → FetchResult
  | httpError : Nat → FetchResult
  | fail : String → FetchResult
deriving DecidableEq, Repr

structure DLState where
  placeholder : Option String
  placeholderFetches : Nat
  writes : List (String × String)
  downloaded : Nat
  errors : List String
deriving DecidableEq, Repr

def BASE_URL : String := "https://sitappa.com/hakurei_ss/"

def MASTER_JS_PATH : String := "kamiCardMasterData.js"

def PLACEHOLDER_IMAGE : String := "cardListImageMin/ph.png"

/-- `BASE_URL + IMAGE_TEMPLATE.format(index=index)`. -/
def imageURL (idx : Int) : String :=
  String.mk (BASE_URL.data ++ "cardListImageMin/sample".data ++ pad4Int idx ++ ".png".data)

def placeholderURL : String := String.mk (BASE_URL.data ++ PLACEHOLDER_IMAGE.data)

/-- `target.exists()`: present initially or already written during this run. -/
def fileExists (fs : List String) (st : DLState) (fn : String) : Bool :=
  fs.contains fn || st.writes.any (fun w => decide (w.1 = fn))

/-- `target.write_bytes(data)` plus `downloaded += 1`. -/
def writeFile (st : DLState) (fn data : String) : DLState :=
  { st with writes := st.writes ++ [(fn, data)], downloaded := st.downloaded + 1 }

/-- `errors.append(...)`. -/
def addError (st : DLState) (msg : String) : DLState :=
  { st with errors := st.errors ++ [msg] }

/-- The body of the per-card loop of `_download_images`.  `card["id"]` and
`card["image"]` are evaluated outside the `try` block, so their failures are
fatal; fetch failures are warnings; a 404 substitutes the placeholder,
fetching it only when it is not cached yet (a failed placeholder fetch
leaves the cache empty and records a warning). -/
def dlStep (fetch : String → FetchResult) (force : Bool) (fs : List String)
    (st : DLState) (card : Record) : Except String DLState :=
  match lookupR card "id" with
  | none => .error "KeyError: id"
  | some iv =>
    match idOrZero (some iv) with
    | .error e => .error e
    | .ok n =>
      match lookupR card "image" with
      | some (.vstr filename) =>
        if fileExists fs st filename && !force then .ok st
        else
          match fetch (imageURL (n + 1)) with
          | .ok data => .ok (writeFile st filename data)
          | .httpError code =>
            if code = 404 then
              match st.placeholder with
              | some pb => .ok (writeFile st filename pb)
              | none =>
                let st1 :=
                  { st with placeholderFetches := st.placeholderFetches + 1 }
                match fetch placeholderURL with
                | .ok pb =>
                  .ok (writeFile { st1 with placeholder := some pb } filename pb)
                | .httpError c2 =>
                  .ok (addError st1 ("placeholder download failed: HTTP " ++ toString c2))
                | .fail msg =>
                  .ok (addError st1 ("placeholder download failed: " ++ msg))
            else .ok (addError st (filename ++ ": HTTP " ++ toString code))
          | .fail msg => .ok (addError st (filename ++ ": " ++ msg))
      | _ => .error "TypeError: image value is not a string"

/-- The loop of `_download_images` over the card list. -/
def dlRun (fetch : String → FetchResult) (force : Bool) (fs : List String) :
    DLState → List Record → Except String DLState
  | st, [] => .ok st
  | st, c :: cs =>
    match dlStep fetch force fs st c with
    | .error e => .error e
    | .ok st1 => dlRun fetch force fs st1 cs

/-- `_download_images` from the empty in-run state. -/
def downloadImages (fetch : String → FetchResult) (force : Bool) (fs : List String)
    (cards : List Record) : Except String DLState :=
  dlRun fetch force fs ⟨none, 0, [], 0, []⟩ cards

/-! ## `update_data` (fetch → parse → download → write) -/

/-- The result of a successful run: the payload written to `cards.json` and
the final download state.  An `.error` models an exception raised before the
`CARDS_JSON.write_text` call. -/
structure RunOutcome where
  payload : Record
  download : DLState
deriving Repr

/-- `_build_metadata` (the timestamp is the `now` parameter). -/
def buildMetadata (cardCount : Nat) (downloadedImages : Nat) (now : String) : Value :=
  .vdict [("card_count", .vint cardCount),
          ("downloaded_images", .vint downloadedImages),
          ("fetched_at", .vstr now),
          ("source", .vstr (BASE_URL ++ MASTER_JS_PATH))]

/-- `_build_payload`. -/
def buildPayload (cards : List Record) (packs : Value) (labels : Record)
    (metadata : Value) : Record :=
  [("metadata", metadata), ("packs", packs),
   ("ability_labels", .vdict labels), ("cards", .vlist (cards.map Value.vdict))]

/-- `update_data`, after the script text has been fetched (`js`): the four
parse steps in source order, then the image download (skipped on request),
then the payload assembly that is written to `cards.json`.  Any error
propagates before the write is reached. -/
def update_data (js : String) (fetch : String → FetchResult) (fs : List String)
    (skipImages forceImages : Bool) (now : String) : Except String RunOutcome :=
  match parse_pack_list js with
  | .error e => .error e
  | .ok packs =>
    match parse_ability_labels js with
    | .error e => .error e
    | .ok labels =>
      match parse_pack_linkage js with
      | .error e => .error e
      | .ok linkage =>
        match parse_card_list js labels linkage with
        | .error e => .error e
        | .ok cards =>
          match (if skipImages then .ok ⟨none, 0, [], 0, []⟩
                 else downloadImages fetch forceImages fs cards) with
          | .error e => .error e
          | .ok dl =>
            .ok ⟨buildPayload cards packs labels
                  (buildMetadata cards.length dl.downloaded now), dl⟩

/-! ## The deck compositor (`deckmaker.py`) -/

def EXPECTED_CARD_COUNT : Nat := 9

def TYPE_CHARACTER : Int := 0

/-- Python `str.strip()` (ASCII whitespace). -/
def pyStrip (s : String) : String :=
  String.mk (((s.data.dropWhile isPySpace).reverse.dropWhile isPySpace).reverse)

/-- Digits of an `int()` literal after the first digit: single underscores
are allowed between digits. -/
def pyIntDigits : List Char → Nat → Option Nat
  | [], acc => some acc
  | '_' :: d :: rest, acc =>
    if d.isDigit then pyIntDigits rest (acc * 10 + (d.toNat - 48)) else none
  | d :: rest, acc =>
    if d.isDigit then pyIntDigits rest (acc * 10 + (d.toNat - 48)) else none

/-- An unsigned `int()` literal: at least one digit. -/
def pyIntCore (l : List Char) : Option Nat :=
  match l with
  | [] => none
  | d :: rest => if d.isDigit then pyIntDigits rest (d.toNat - 48) else none

/-- `int(line)` on an already-stripped line: optional sign, then digits. -/
def pyInt (s : String) : Except String Int :=
  match s.data with
  | '+' :: rest =>
    match pyIntCore rest with
    | some n => .ok (Int.ofNat n)
    | none => .error "invalid literal for int"
  | '-' :: rest =>
    match pyIntCore rest with
    | some n => .ok (-(Int.ofNat n))
    | none => .error "invalid literal for int"
  | l =>
    match pyIntCore l with
    | some n => .ok (Int.ofNat n)
    | none => .error "invalid literal for int"

/-- `read_deck_ids` on the split lines of the deck file: strip each line,
drop blanks, require exactly 9 lines, parse each as an integer (the first
failure aborts). -/
def read_deck_ids (lines : List String) : Except String (List Int) :=
  if ((lines.map pyStrip).filter (fun l => l ≠ "")).length ≠ EXPECTED_CARD_COUNT then
    .error "deck.txt must contain exactly 9 card ids"
  else exMapM pyInt ((lines.map pyStrip).filter (fun l => l ≠ ""))

/-- `card.get("type") != TYPE_CHARACTER` is the abort condition; Python `==`
counts `False` as equal to `0`. -/
def isTypeCharacter (v : Option Value) : Bool :=
  match v with
  | some (.vint n) => decide (n = 0)
  | some (.vbool b) => !b
  | _ => false

/-- One iteration of the `validate_ids` loop: look the id up in the card map
(fatal if absent), abort unless the card type is Character. -/
def validateOne (cardMap : List (Int × Record)) (cid : Int) : Except String Record :=
  match (cardMap.find? (fun e => decide (e.1 = cid))).map (fun e => e.2) with
  | none => .error "card id was not found in cards.json"
  | some card =>
    if isTypeCharacter (lookupR card "type") then .ok card
    else .error "not a character card"

/-- `validate_ids`: look each deck id up in the card map (fatal if absent or
not a character card); the cards come back in deck-list order. -/
def validate_ids (deckIds : List Int) (cardMap : List (Int × Record)) :
    Except String (List Record) :=
  exMapM (validateOne cardMap) deckIds

/-! ## `compose_grid` -/

/-- An image, abstracted to its size and an opaque content tag
(`resize` keeps the content tag and changes the size). -/
structure PImage where
  width : Nat
  height : Nat
  tag : Nat
deriving DecidableEq, Repr

def resizeImg (img : PImage) (w h : Nat) : PImage := ⟨w, h, img.tag⟩

/-- One `canvas.paste(image, offset)` call. -/
structure Placement where
  img : PImage
  offX : Nat
  offY : Nat
deriving DecidableEq, Repr

structure Canvas where
  width : Nat
  height : Nat
  placements : List Placement
deriving DecidableEq, Repr

/-- The `enumerate` loop of `compose_grid`: resize when the size differs from
the base size, place at column `i % 3`, row `i / 3`. -/
def placeGo (w0 h0 : Nat) : Nat → List PImage → List Placement
  | _, [] => []
  | idx, img :: rest =>
    (⟨if img.width = w0 ∧ img.height = h0 then img else resizeImg img w0 h0,
      (idx % 3) * w0, (idx / 3) * h0⟩ : Placement) :: placeGo w0 h0 (idx + 1) rest

/-- `compose_grid`: a canvas three times the first image's size, with every
image pasted in row-major order (`none` models the `IndexError` on an empty
list). -/
def compose_grid (images : List PImage) : Option Canvas :=
  match images with
  | [] => none
  | i0 :: _ => some ⟨i0.width * 3, i0.height * 3, placeGo i0.width i0.height 0 images⟩

/-! ## Auxiliary predicates and decoders used by the theorems -/

/-- Did the `Except` computation succeed? -/
def isOkE {α : Type} : Except String α → Bool
  | .ok _ => true
  | .error _ => false

/-- Every record at position `≥ i` whose `refer_id` is set can find its base
record in the batch. -/
def allRefsResolve (st : List Record) (i : Nat) : Prop :=
  ∀ j (hj : j < st.length), i ≤ j → ∀ r, referTarget (st.get ⟨j, hj⟩) = some r →
    (findBase st r).isSome = true

/-- Invariant of the placeholder cache when the placeholder endpoint serves
`pb`: at most one fetch, and the cache holds `pb` exactly after that fetch. -/
def phInv (pb : String) (st : DLState) : Prop :=
  st.placeholderFetches ≤ 1 ∧
  (st.placeholder = none → st.placeholderFetches = 0) ∧
  (∀ b, st.placeholder = some b → b = pb ∧ st.placeholderFetches = 1)

/-- A `KEY_PATTERN` match starts at the head of the text. -/
def keyMatchAt (l : List Char) : Bool :=
  match l with
  | [] => false
  | c :: cs => (c = '{' || c = ',' || c = '[') && (tryKeyMatch cs).isSome

/-- Is the value a (Python) list? -/
def isSeqVal : Option Value → Bool
  | some (.vlist _) => true
  | _ => false

/-- Big-endian decimal value of a digit-character run (a non-digit character
contributes garbage; only applied to rendered digits). -/
def charsToNat (l : List Char) : Nat :=
  l.foldl (fun a c => a * 10 + (c.toNat - 48)) 0

/-- Decode a (possibly zero-padded, possibly signed) rendered integer. -/
def decodeInt (l : List Char) : Int :=
  if l.head? = some '-' then -(Int.ofNat (charsToNat l.tail))
  else Int.ofNat (charsToNat l)

/-- Recover the zero-padded index from an image filename
(`"sample"` is 6 characters, `".png"` is 4). -/
def imageIdx (s : String) : Int :=
  decodeInt ((s.data.drop 6).take ((s.data.drop 6).length - 4))

/-! ## Concrete fixtures for witnesses and counterexamples -/

def c1base : Record := [("id", .vint 1), ("text", .vstr "Base text"), ("cost", .vint 3)]

def c1card : Record := [("id", .vint 2), ("refer_id", .vint 1), ("text", .vstr "")]

def c4cardA : Record := [("id", .vint 1), ("image", .vstr "a.png")]

def c4cardB : Record := [("id", .vint 2), ("image", .vstr "b.png")]

/-- An oracle whose placeholder endpoint is down and whose card images are
all missing. -/
def c4fetchBad : String → FetchResult :=
  fun u => if u = placeholderURL then .fail "down" else .httpError 404

/-- An oracle whose placeholder endpoint serves `"PH"` and whose card images
are all missing. -/
def c4fetchGood : String → FetchResult :=
  fun u => if u = placeholderURL then .ok "PH" else .httpError 404

/-- The final state of the run over `c4fetchGood` with both cards missing. -/
def c4stGood : DLState :=
  ⟨some "PH", 1, [("a.png", "PH"), ("b.png", "PH")], 2, []⟩

/-- `['x, b: y']`: a list holding one string whose content happens to contain
`, b: `. -/
def c6input : List Char := ['[', qc, 'x', ',', ' ', 'b', ':', ' ', 'y', qc, ']']

/-- What `_quote_object_keys` produces on `c6input`: the `b` inside the
string literal has been quoted. -/
def c6output : List Char := ['[', qc, 'x', ',', ' ', qc, 'b', qc, ':', ' ', 'y', qc, ']']

/-- A raw record whose `pack` field is explicitly `None`. -/
def c8card : Record := [("id", .vint 0), ("pack", .vnull)]

/-- The normalized form of `c8card`: `packs` passes the `None` through. -/
def c8nc : Record :=
  [("id", .vint 0), ("type", .vnull), ("name", .vnull), ("cost", .vnull),
   ("power", .vnull), ("rate", .vnull), ("packs", .vnull), ("text", .vstr ""),
   ("qa", .vlist []), ("illustrator", .vnull), ("source", .vnull),
   ("source_name", .vnull), ("kirakira", .vbool false),
   ("image", .vstr "sample0001.png"), ("tags", .vlist []),
   ("abilities", .vlist [])]

/-- A script text with a pack list and ability labels but no `cardData`
region. -/
def jsC2 : String :=
  "const pack = [1, 2];\nexport const abilityLabel = 0;\n"

def c9lines : List String :=
  ["1", "2", "3", " 4", "5 ", "6", "7", "8", "9"]

def c9rec (n : Int) : Record := [("id", .vint n), ("type", .vint 0)]

def c9map : List (Int × Record) :=
  [(1, c9rec 1), (2, c9rec 2), (3, c9rec 3), (4, c9rec 4), (5, c9rec 5),
   (6, c9rec 6), (7, c9rec 7), (8, c9rec 8), (9, c9rec 9)]

def c10Images : List PImage :=
  [⟨32, 48, 0⟩, ⟨32, 48, 1⟩, ⟨32, 48, 2⟩, ⟨32, 48, 3⟩, ⟨64, 64, 4⟩,
   ⟨32, 48, 5⟩, ⟨32, 48, 6⟩, ⟨32, 48, 7⟩, ⟨32, 48, 8⟩]

def c10Canvas : Canvas :=
  ⟨96, 144,
   [⟨⟨32, 48, 0⟩, 0, 0⟩, ⟨⟨32, 48, 1⟩, 32, 0⟩, ⟨⟨32, 48, 2⟩, 64, 0⟩,
    ⟨⟨32, 48, 3⟩, 0, 48⟩, ⟨⟨32, 48, 4⟩, 32, 48⟩, ⟨⟨32, 48, 5⟩, 64, 48⟩,
    ⟨⟨32, 48, 6⟩, 0, 96⟩, ⟨⟨32, 48, 7⟩, 32, 96⟩, ⟨⟨32, 48, 8⟩, 64, 96⟩]⟩

def c8goodCard : Record :=
  [("id", .vint 5), ("tag", .vstr "a, b  c"), ("pack", .vlist [.vint 2])]

/-! ## Theorems -/

theorem placeGo_length (w0 h0 idx : Nat) (l : List PImage) :
    (placeGo w0 h0 idx l).length = l.length := by
  induction l generalizing idx with
  | nil => simp [placeGo]
  | cons a as ih => simp [placeGo, ih]

theorem placeGo_getElem (w0 h0 : Nat) (l : List PImage) :
    ∀ (idx i : Nat) (img : PImage), l[i]? = some img →
      (placeGo w0 h0 idx l)[i]? =
        some ⟨if img.width = w0 ∧ img.height = h0 then img else resizeImg img w0 h0,
              ((idx + i) % 3) * w0, ((idx + i) / 3) * h0⟩ := by
  induction l with
  | nil => intro idx i img h; simp at h
  | cons a as ih =>
    intro idx i img h
    cases i with
    | zero =>
      simp only [List.getElem?_cons_zero, Option.some.injEq] at h
      subst h
      simp [placeGo]
    | succ j =>
      simp only [List.getElem?_cons_succ] at h
      have h2 := ih (idx + 1) j img h
      have e : idx + (j + 1) = idx + 1 + j := by omega
      simp only [placeGo, List.getElem?_cons_succ, e]
      exact h2

/-- C10: for a non-empty list of 9 input images, even with differing sizes,
`compose_grid` returns a canvas exactly 3× the first image's width and
height; every image whose size differs from the first image's size is
resized to that size before being pasted, and image `i` is placed at column
`i % 3`, row `i / 3` of the grid. -/
theorem c10_compose_grid (imgs : List PImage) (i0 : PImage) (c : Canvas)
    (hlen : imgs.length = 9) (hhead : imgs.head? = some i0)
    (hc : compose_grid imgs = some c) :
    c.width = i0.width * 3 ∧ c.height = i0.height * 3 ∧
    c.placements.length = 9 ∧
    (∀ i img, imgs[i]? = some img →
      c.placements[i]? =
        some (Placement.mk
          (if img.width = i0.width ∧ img.height = i0.height then img
           else resizeImg img i0.width i0.height)
          ((i % 3) * i0.width) ((i / 3) * i0.height))) := by
  cases imgs with
  | nil => simp at hhead
  | cons a rest =>
    simp only [List.head?_cons, Option.some.injEq] at hhead
    subst hhead
    simp only [compose_grid, Option.some.injEq] at hc
    subst hc
    refine ⟨rfl, rfl, ?_, ?_⟩
    · simpa [placeGo_length] using hlen
    · intro i img h
      have h2 := placeGo_getElem a.width a.height (a :: rest) 0 i img h
      simpa using h2

/-- Witness for C10 at a concrete 9-image list with one differently-sized
image (index 4). -/
theorem c10_witness :
    c10Canvas.width = 32 * 3 ∧ c10Canvas.height = 48 * 3 ∧
    c10Canvas.placements[4]? =
      some (Placement.mk
        (if (64 : Nat) = 32 ∧ (64 : Nat) = 48 then (⟨64, 64, 4⟩ : PImage)
         else resizeImg ⟨64, 64, 4⟩ 32 48)
        ((4 % 3) * 32) ((4 / 3) * 48)) := by
  have h := c10_compose_grid c10Images ⟨32, 48, 0⟩ c10Canvas (by decide) (by decide)
    (by decide)
  exact ⟨h.1, h.2.1, h.2.2.2 4 ⟨64, 64, 4⟩ (by decide)⟩

theorem exMapM_isOk_iff {α β : Type} (f : α → Except String β) (l : List α) :
    isOkE (exMapM f l) = true ↔ ∀ a ∈ l, isOkE (f a) = true := by
  induction l with
  | nil => simp [exMapM, isOkE]
  | cons a as ih =>
    simp only [exMapM, List.mem_cons]
    rcases hfa : f a with e | b
    · simp only [isOkE, Bool.false_eq_true, false_iff]
      intro h
      have h2 := h a (Or.inl rfl)
      rw [hfa] at h2
      simp [isOkE] at h2
    · rcases hrest : exMapM f as with e2 | bs
      · rw [hrest] at ih
        simp only [isOkE, Bool.false_eq_true, false_iff] at ih ⊢
        intro h
        exact ih (fun x hx => h x (Or.inr hx))
      · rw [hrest] at ih
        simp only [isOkE, true_iff] at ih ⊢
        rintro x (rfl | hx)
        · rw [hfa]
        · exact ih x hx

theorem exMapM_ok_forall2 {α β : Type} (f : α → Except String β) :
    ∀ (l : List α) (bs : List β), exMapM f l = .ok bs →
      List.Forall₂ (fun a b => f a = .ok b) l bs := by
  intro l
  induction l with
  | nil =>
    intro bs h
    simp only [exMapM, Except.ok.injEq] at h
    subst h
    exact List.Forall₂.nil
  | cons a as ih =>
    intro bs h
    simp only [exMapM] at h
    rcases hfa : f a with e | b <;> rw [hfa] at h
    · cases h
    · rcases hrest : exMapM f as with e2 | bs2 <;> rw [hrest] at h
      · cases h
      · cases h
        exact List.Forall₂.cons hfa (ih bs2 hrest)

theorem validateOne_isOk_iff (m : List (Int × Record)) (cid : Int) :
    isOkE (validateOne m cid) = true ↔
      ∃ card, (m.find? (fun e => decide (e.1 = cid))).map (fun e => e.2) = some card ∧
        isTypeCharacter (lookupR card "type") = true := by
  unfold validateOne
  rcases hf : (m.find? (fun e => decide (e.1 = cid))).map (fun e => e.2) with _ | card
  · rw [hf]
    simp [isOkE, hf]
  · rw [hf]
    by_cases ht : isTypeCharacter (lookupR card "type") = true
    · simp [isOkE, ht, hf]
    · simp [isOkE, ht, hf]

theorem validateOne_ok (m : List (Int × Record)) (cid : Int) (card : Record)
    (h : validateOne m cid = .ok card) :
    (m.find? (fun e => decide (e.1 = cid))).map (fun e => e.2) = some card ∧
    isTypeCharacter (lookupR card "type") = true := by
  unfold validateOne at h
  rcases hf : (m.find? (fun e => decide (e.1 = cid))).map (fun e => e.2) with _ | card2 <;>
    rw [hf] at h
  · cases h
  · dsimp only at h
    by_cases ht : isTypeCharacter (lookupR card2 "type") = true
    · rw [if_pos ht] at h
      cases h
      exact ⟨hf, ht⟩
    · rw [if_neg ht] at h
      cases h

/-- C9: the deck compositor accepts a deck file iff, after dropping blank
lines, it has exactly 9 lines each parseable as a decimal integer (any other
non-blank count or a non-numeric line aborts), then aborts on any id not in
the catalog or whose card type is not Character (type 0); on valid input it
returns the 9 cards in deck-list order. -/
theorem c9_deck_validation (lines : List String) (ids : List Int)
    (m : List (Int × Record)) :
    (isOkE (read_deck_ids lines) = true ↔
      (((lines.map pyStrip).filter (fun l => l ≠ "")).length = 9 ∧
        ∀ s ∈ (lines.map pyStrip).filter (fun l => l ≠ ""), isOkE (pyInt s) = true)) ∧
    (∀ out, read_deck_ids lines = .ok out →
      List.Forall₂ (fun s i => pyInt s = .ok i)
        ((lines.map pyStrip).filter (fun l => l ≠ "")) out ∧ out.length = 9) ∧
    (isOkE (validate_ids ids m) = true ↔
      ∀ cid ∈ ids, ∃ card,
        (m.find? (fun e => decide (e.1 = cid))).map (fun e => e.2) = some card ∧
        isTypeCharacter (lookupR card "type") = true) ∧
    (∀ cards, validate_ids ids m = .ok cards →
      List.Forall₂
        (fun cid card =>
          (m.find? (fun e => decide (e.1 = cid))).map (fun e => e.2) = some card ∧
          isTypeCharacter (lookupR card "type") = true)
        ids cards) := by
  refine ⟨?_, ?_, ?_, ?_⟩
  · by_cases h9 : ((lines.map pyStrip).filter (fun l => l ≠ "")).length = 9
    · rw [read_deck_ids, if_neg (fun hc => hc h9)]
      rw [exMapM_isOk_iff]
      exact ⟨fun h => ⟨h9, h⟩, fun h => h.2⟩
    · rw [read_deck_ids,
        if_pos (show ((lines.map pyStrip).filter (fun l => l ≠ "")).length ≠
          EXPECTED_CARD_COUNT from h9)]
      exact ⟨fun h => by simp [isOkE] at h, fun h => absurd h.1 h9⟩
  · intro out hout
    rw [read_deck_ids] at hout
    split at hout
    · cases hout
    · rename_i h9
      have h9' : ((lines.map pyStrip).filter (fun l => l ≠ "")).length = 9 := by
        simpa [EXPECTED_CARD_COUNT] using h9
      have hf := exMapM_ok_forall2 pyInt _ out hout
      exact ⟨hf, by rw [← hf.length_eq, h9']⟩
  · simp [validate_ids, exMapM_isOk_iff, validateOne_isOk_iff]
  · intro cards h
    exact (exMapM_ok_forall2 _ _ _ h).imp (fun a b hab => validateOne_ok m a b hab)

/-- Witness for C9: a 9-line deck list (with stray whitespace) parses to the
ids 1–9 in order. -/
theorem c9_witness :
    read_deck_ids c9lines = .ok [1, 2, 3, 4, 5, 6, 7, 8, 9] ∧
    List.Forall₂ (fun s i => pyInt s = .ok i)
      ((c9lines.map pyStrip).filter (fun l => l ≠ ""))
      [1, 2, 3, 4, 5, 6, 7, 8, 9] := by
  have h := (c9_deck_validation c9lines [] []).2.1 [1, 2, 3, 4, 5, 6, 7, 8, 9] (by decide)
  exact ⟨by decide, h.1⟩

theorem natDigitsGo_eq_rec : ∀ (fuel n : Nat) (acc : List Char), n ≤ fuel →
    natDigitsGo fuel n acc = natDigitsRec n ++ acc := by
  intro fuel
  induction fuel with
  | zero =>
    intro n acc h
    interval_cases n
    simp [natDigitsGo, natDigitsRec]
  | succ k ih =>
    intro n acc h
    cases n with
    | zero => simp [natDigitsGo, natDigitsRec]
    | succ m =>
      have hdiv : (m + 1) / 10 ≤ k := by
        have := Nat.div_lt_self (Nat.succ_pos m) (by norm_num : 1 < 10)
        omega
      rw [show natDigitsGo (k + 1) (m + 1) acc =
          natDigitsGo k ((m + 1) / 10) (Char.ofNat (48 + (m + 1) % 10) :: acc) from rfl]
      rw [ih _ _ hdiv]
      conv_rhs => rw [natDigitsRec, if_neg (Nat.succ_ne_zero m)]
      rw [List.append_assoc]
      rfl

theorem charsToNat_rec (n : Nat) : charsToNat (natDigitsRec n) = n := by
  induction n using Nat.strong_induction_on with
  | _ n ih =>
    by_cases h : n = 0
    · subst h
      simp [natDigitsRec, charsToNat]
    · rw [natDigitsRec, if_neg h]
      have hdiv : n / 10 < n := Nat.div_lt_self (Nat.pos_of_ne_zero h) (by norm_num)
      have ihd := ih (n / 10) hdiv
      rw [charsToNat] at ihd ⊢
      rw [List.foldl_append]
      simp only [List.foldl_cons, List.foldl_nil]
      rw [ihd]
      have hv : ∀ r : Nat, r < 10 → (Char.ofNat (48 + r)).toNat = 48 + r := by
        intro r hr
        interval_cases r <;> decide
      rw [hv (n % 10) (Nat.mod_lt _ (by norm_num))]
      omega

theorem digitChars_eq_rec (n : Nat) : digitChars n = natDigitsRec n := by
  rw [digitChars, natDigitsGo_eq_rec n n [] (le_refl n), List.append_nil]

theorem charsToNat_digitChars (n : Nat) : charsToNat (digitChars n) = n := by
  rw [digitChars_eq_rec, charsToNat_rec]

theorem charsToNat_pad (k : Nat) (l : List Char) :
    charsToNat (List.replicate k '0' ++ l) = charsToNat l := by
  induction k with
  | zero => simp
  | succ j ih =>
    have h0 : (0 : Nat) * 10 + ('0'.toNat - 48) = 0 := by decide
    simp only [List.replicate_succ, List.cons_append, charsToNat, List.foldl_cons] at ih ⊢
    rw [h0]
    exact ih

theorem natDigitsRec_mem (n : Nat) : ∀ c ∈ natDigitsRec n, ∃ r, r < 10 ∧
    c = Char.ofNat (48 + r) := by
  induction n using Nat.strong_induction_on with
  | _ n ih =>
    by_cases h : n = 0
    · subst h
      simp [natDigitsRec]
    · rw [natDigitsRec, if_neg h]
      intro c hc
      rcases List.mem_append.mp hc with h1 | h1
      · exact ih (n / 10) (Nat.div_lt_self (Nat.pos_of_ne_zero h) (by norm_num)) c h1
      · simp only [List.mem_singleton] at h1
        subst h1
        exact ⟨n % 10, Nat.mod_lt _ (by norm_num), rfl⟩

theorem pad4_nonneg_head (n : Nat) : (leftPad 4 (digitChars n)).head? ≠ some '-' := by
  unfold leftPad
  cases hk : 4 - (digitChars n).length with
  | zero =>
    simp only [List.replicate_zero, List.nil_append]
    cases hd : digitChars n with
    | nil =>
      rw [hd] at hk
      simp at hk
    | cons c cs =>
      simp only [List.head?_cons, ne_eq, Option.some.injEq]
      have hm : c ∈ natDigitsRec n := by
        rw [← digitChars_eq_rec, hd]
        exact List.mem_cons_self _ _
      obtain ⟨r, hr, rfl⟩ := natDigitsRec_mem n c hm
      intro hcon
      interval_cases r <;> simp_all
  | succ j =>
    simp [List.replicate_succ]

theorem decode_pad4 (idx : Int) : decodeInt (pad4Int idx) = idx := by
  unfold pad4Int
  by_cases h : idx < 0
  · rw [if_pos h]
    have hstep : decodeInt ('-' :: leftPad 3 (digitChars idx.natAbs)) =
        -(Int.ofNat (charsToNat (leftPad 3 (digitChars idx.natAbs)))) := by
      unfold decodeInt
      simp
    rw [hstep]
    unfold leftPad
    rw [charsToNat_pad, charsToNat_digitChars]
    simp only [Int.ofNat_eq_coe]
    omega
  · rw [if_neg h]
    unfold decodeInt
    rw [if_neg (pad4_nonneg_head idx.toNat)]
    unfold leftPad
    rw [charsToNat_pad, charsToNat_digitChars]
    simp only [Int.ofNat_eq_coe]
    omega

theorem imageIdx_imageName (idx : Int) : imageIdx (imageName idx) = idx := by
  unfold imageIdx imageName
  have hdata : (String.mk ("sample".data ++ pad4Int idx ++ ".png".data)).data =
      "sample".data ++ pad4Int idx ++ ".png".data := rfl
  rw [hdata]
  have h6 : ("sample".data).length = 6 := rfl
  rw [List.append_assoc, ← h6, List.drop_left]
  have hlen : (pad4Int idx ++ ".png".data).length - 4 = (pad4Int idx).length := by
    rw [List.length_append]
    simp
  rw [hlen, List.take_left]
  exact decode_pad4 idx

/-- C7: for every raw record with an integer id, the normalized card's image
field is `"sample"` + (id+1, zero-padded to 4 digits) + `".png"` (id 41
yields `"sample0042.png"`), and the filename function is injective: distinct
integer ids never collide. -/
theorem c7_image_filename (labels card nc : Record) (n : Int)
    (hid : lookupR card "id" = some (.vint n))
    (hok : normalizeCard labels card = .ok nc) :
    lookupR nc "image" = some (.vstr (imageName (n + 1))) ∧
    (∀ m k : Int, imageName (m + 1) = imageName (k + 1) → m = k) ∧
    imageName (41 + 1) = "sample0042.png" := by
  refine ⟨?_, ?_, by decide⟩
  · have hidz : idOrZero (lookupR card "id") = .ok n := by
      rw [hid]
      by_cases h0 : n = 0
      · subst h0
        simp [idOrZero, isFalsy]
      · simp [idOrZero, isFalsy, h0]
    unfold normalizeCard at hok
    rcases htx : normText (lookupR card "text") with e | tv <;> rw [htx] at hok
    · cases hok
    · rw [hidz] at hok
      rcases htg : normalizeTags (lookupR card "tag") with e | tags <;> rw [htg] at hok
      · cases hok
      · rcases hab : abilityCodes (lookupR card "ability") with e | codes <;>
          rw [hab] at hok
        · cases hok
        · cases hok
          simp +decide [lookupR, List.cons_append]
  · intro m k h
    have h2 := congrArg imageIdx h
    rw [imageIdx_imageName, imageIdx_imageName] at h2
    omega

/-- Witness for C7: a concrete raw record with id 41 receives the filename
`sample0042.png`. -/
theorem c7_witness :
    lookupR
      ((normalizeCard [] [("id", .vint 41)]).toOption.getD [])
      "image" = some (.vstr (imageName (41 + 1))) := by
  have h := c7_image_filename [] [("id", .vint 41)]
    ((normalizeCard [] [("id", .vint 41)]).toOption.getD []) 41 (by decide) (by decide)
  exact h.1

/-- C8 counterexample: a raw record with `pack` explicitly `None` normalizes
to a card whose `packs` field is `None`, not a sequence, contradicting the
claim that the `packs` field is always a sequence. -/
theorem c8_counterexample :
    normalizeCard [] c8card = .ok c8nc ∧ isSeqVal (lookupR c8nc "packs") = false := by
  constructor
  · decide
  · decide

theorem splitAnyDelim_mem (l : List Char) :
    ∀ f ∈ splitAnyDelim l, ∀ ch ∈ f, isDelimChar ch = false := by
  induction l with
  | nil =>
    intro f hf ch hch
    simp only [splitAnyDelim, List.mem_singleton] at hf
    subst hf
    simp at hch
  | cons c cs ih =>
    intro f hf ch hch
    by_cases hc : isDelimChar c = true
    · simp only [splitAnyDelim, hc, if_true] at hf
      rcases List.mem_cons.mp hf with h1 | h1
      · subst h1
        simp at hch
      · exact ih f h1 ch hch
    · have hc' : isDelimChar c = false := by simpa using hc
      simp only [splitAnyDelim, hc', Bool.false_eq_true, if_false] at hf
      rcases hsp : splitAnyDelim cs with _ | ⟨f0, rest⟩ <;> rw [hsp] at hf
      · simp only [List.mem_singleton] at hf
        subst hf
        simp only [List.mem_singleton] at hch
        subst hch
        exact hc'
      · rcases List.mem_cons.mp hf with h1 | h1
        · subst h1
          rcases List.mem_cons.mp hch with h2 | h2
          · subst h2
            exact hc'
          · exact ih f0 (by rw [hsp]; exact List.mem_cons_self _ _) ch h2
        · exact ih f (by rw [hsp]; exact List.mem_cons.mpr (Or.inr h1)) ch hch

theorem normalizeTags_ok_props (raw : Option Value) (ts : List String)
    (h : normalizeTags raw = .ok ts) :
    (∀ t ∈ ts, t ≠ "" ∧ ∀ ch ∈ t.data, isDelimChar ch = false) ∧
    ((raw = none ∨ raw = some .vnull) → ts = []) := by
  unfold normalizeTags at h
  rcases raw with _ | v <;> dsimp only at h
  · cases h
    exact ⟨by simp, fun _ => rfl⟩
  · by_cases hf : isFalsy v = true
    · rw [if_pos hf] at h
      cases h
      exact ⟨by simp, fun _ => rfl⟩
    · rw [if_neg hf] at h
      cases v with
      | vstr s =>
        cases h
        constructor
        · intro t ht
          rcases List.mem_filter.mp ht with ⟨hmem, hne⟩
          refine ⟨by simpa using hne, ?_⟩
          rcases List.mem_map.mp hmem with ⟨f, hfmem, rfl⟩
          intro ch hch
          exact splitAnyDelim_mem s.data f hfmem ch hch
        · rintro (h' | h') <;> cases h' 
      | vnull => exact absurd (by decide : isFalsy Value.vnull = true) hf
      | vbool b => cases h
      | vint n => cases h
      | vlist l => cases h
      | vdict l => cases h

/-- The successful result of `_normalize_card`, with the intermediate values
made explicit. -/
theorem normalizeCard_ok_shape (labels card nc : Record)
    (hok : normalizeCard labels card = .ok nc) :
    ∃ tv idBase tags codes,
      normText (lookupR card "text") = .ok tv ∧
      idOrZero (lookupR card "id") = .ok idBase ∧
      normalizeTags (lookupR card "tag") = .ok tags ∧
      abilityCodes (lookupR card "ability") = .ok codes ∧
      nc = ([("id", (lookupR card "id").getD .vnull),
            ("type", (lookupR card "type").getD .vnull),
            ("name", (lookupR card "nm").getD .vnull),
            ("cost", (lookupR card "cost").getD .vnull),
            ("power", (lookupR card "power").getD .vnull),
            ("rate", (lookupR card "rate").getD .vnull),
            ("packs", (lookupR card "pack").getD (.vlist [])),
            ("text", tv),
            ("qa", (lookupR card "qa").getD (.vlist [])),
            ("illustrator", (lookupR card "illust").getD .vnull),
            ("source", (lookupR card "src").getD .vnull),
            ("source_name", (lookupR card "srcName").getD .vnull),
            ("kirakira", .vbool (!(isFalsy ((lookupR card "kirakira").getD .vnull)))),
            ("image", .vstr (imageName (idBase + 1))),
            ("tags", .vlist (tags.map Value.vstr))]
        ++ (match lookupR card "refer_id" with
            | some rv => [("refer_id", rv)]
            | none => [])
        ++ [("abilities", .vlist (codes.map (abilityEntry labels)))]) := by
  unfold normalizeCard at hok
  rcases htx : normText (lookupR card "text") with e | tv <;> rw [htx] at hok
  · cases hok
  · rcases hiz : idOrZero (lookupR card "id") with e | idBase <;> rw [hiz] at hok
    · cases hok
    · rcases htg : normalizeTags (lookupR card "tag") with e | tags <;> rw [htg] at hok
      · cases hok
      · rcases hab : abilityCodes (lookupR card "ability") with e | codes <;>
          rw [hab] at hok
        · cases hok
        · cases hok
          exact ⟨tv, idBase, tags, codes, rfl, rfl, rfl, rfl, rfl⟩

/-- C8 (amended): for every raw record whose `pack` field, when present, is a
list without null entries, the normalized `tags`, `abilities` and `packs`
fields are lists with no null entries; an absent or falsy raw tag yields the
empty list (`"a, b  c"` splits to `["a", "b", "c"]`, empty fragments
dropped), an absent or null raw ability or pack field yields the empty list.
(A raw `pack` that is explicitly `None` — or a list containing `None` — is
passed through unchanged, which is what the counterexample shows.) -/
theorem c8_list_fields (labels card nc : Record)
    (hok : normalizeCard labels card = .ok nc)
    (hpack : ∀ v, lookupR card "pack" = some v →
      ∃ xs, v = .vlist xs ∧ Value.vnull ∉ xs) :
    (∃ xs, lookupR nc "packs" = some (.vlist xs) ∧ Value.vnull ∉ xs) ∧
    (lookupR card "pack" = none → lookupR nc "packs" = some (.vlist [])) ∧
    (∃ ts : List String, lookupR nc "tags" = some (.vlist (ts.map Value.vstr)) ∧
      ∀ t ∈ ts, t ≠ "") ∧
    ((lookupR card "tag" = none ∨ lookupR card "tag" = some .vnull) →
      lookupR nc "tags" = some (.vlist [])) ∧
    (∃ es : List Value, lookupR nc "abilities" = some (.vlist es) ∧
      ∀ e ∈ es, ∃ kvs, e = .vdict kvs) ∧
    ((lookupR card "ability" = none ∨ lookupR card "ability" = some .vnull) →
      lookupR nc "abilities" = some (.vlist [])) ∧
    normalizeTags (some (.vstr "a, b  c")) = .ok ["a", "b", "c"] := by
  obtain ⟨tv, idBase, tags, codes, htx, hiz, htg, hab, rfl⟩ :=
    normalizeCard_ok_shape labels card nc hok
  have hpk : lookupR
      ([("id", (lookupR card "id").getD .vnull),
        ("type", (lookupR card "type").getD .vnull),
        ("name", (lookupR card "nm").getD .vnull),
        ("cost", (lookupR card "cost").getD .vnull),
        ("power", (lookupR card "power").getD .vnull),
        ("rate", (lookupR card "rate").getD .vnull),
        ("packs", (lookupR card "pack").getD (.vlist [])),
        ("text", tv),
        ("qa", (lookupR card "qa").getD (.vlist [])),
        ("illustrator", (lookupR card "illust").getD .vnull),
        ("source", (lookupR card "src").getD .vnull),
        ("source_name", (lookupR card "srcName").getD .vnull),
        ("kirakira", .vbool (!(isFalsy ((lookupR card "kirakira").getD .vnull)))),
        ("image", .vstr (imageName (idBase + 1))),
        ("tags", .vlist (tags.map Value.vstr))]
        ++ (match lookupR card "refer_id" with
            | some rv => [("refer_id", rv)]
            | none => [])
        ++ [("abilities", .vlist (codes.map (abilityEntry labels)))])
      "packs" = some ((lookupR card "pack").getD (.vlist [])) := by
    simp +decide [lookupR, List.cons_append]
  have htgl : lookupR
      ([("id", (lookupR card "id").getD .vnull),
        ("type", (lookupR card "type").getD .vnull),
        ("name", (lookupR card "nm").getD .vnull),
        ("cost", (lookupR card "cost").getD .vnull),
        ("power", (lookupR card "power").getD .vnull),
        ("rate", (lookupR card "rate").getD .vnull),
        ("packs", (lookupR card "pack").getD (.vlist [])),
        ("text", tv),
        ("qa", (lookupR card "qa").getD (.vlist [])),
        ("illustrator", (lookupR card "illust").getD .vnull),
        ("source", (lookupR card "src").getD .vnull),
        ("source_name", (lookupR card "srcName").getD .vnull),
        ("kirakira", .vbool (!(isFalsy ((lookupR card "kirakira").getD .vnull)))),
        ("image", .vstr (imageName (idBase + 1))),
        ("tags", .vlist (tags.map Value.vstr))]
        ++ (match lookupR card "refer_id" with
            | some rv => [("refer_id", rv)]
            | none => [])
        ++ [("abilities", .vlist (codes.map (abilityEntry labels)))])
      "tags" = some (.vlist (tags.map Value.vstr)) := by
    simp +decide [lookupR, List.cons_append]
  have habl : lookupR
      ([("id", (lookupR card "id").getD .vnull),
        ("type", (lookupR card "type").getD .vnull),
        ("name", (lookupR card "nm").getD .vnull),
        ("cost", (lookupR card "cost").getD .vnull),
        ("power", (lookupR card "power").getD .vnull),
        ("rate", (lookupR card "rate").getD .vnull),
        ("packs", (lookupR card "pack").getD (.vlist [])),
        ("text", tv),
        ("qa", (lookupR card "qa").getD (.vlist [])),
        ("illustrator", (lookupR card "illust").getD .vnull),
        ("source", (lookupR card "src").getD .vnull),
        ("source_name", (lookupR card "srcName").getD .vnull),
        ("kirakira", .vbool (!(isFalsy ((lookupR card "kirakira").getD .vnull)))),
        ("image", .vstr (imageName (idBase + 1))),
        ("tags", .vlist (tags.map Value.vstr))]
        ++ (match lookupR card "refer_id" with
            | some rv => [("refer_id", rv)]
            | none => [])
        ++ [("abilities", .vlist (codes.map (abilityEntry labels)))])
      "abilities" = some (.vlist (codes.map (abilityEntry labels))) := by
    rcases lookupR card "refer_id" with _ | rv <;> simp +decide [lookupR, List.cons_append]
  refine ⟨?_, ?_, ?_, ?_, ?_, ?_, by decide⟩
  · rw [hpk]
    rcases hp : lookupR card "pack" with _ | v
    · exact ⟨[], by simp, by simp⟩
    · obtain ⟨xs, rfl, hnn⟩ := hpack v hp
      exact ⟨xs, by simp, hnn⟩
  · intro hp
    rw [hpk, hp]
    rfl
  · rw [htgl]
    refine ⟨tags, rfl, ?_⟩
    intro t ht
    exact ((normalizeTags_ok_props _ _ htg).1 t ht).1
  · intro htag
    have : tags = [] := (normalizeTags_ok_props _ _ htg).2 htag
    subst this
    rw [htgl]
    rfl
  · rw [habl]
    refine ⟨codes.map (abilityEntry labels), rfl, ?_⟩
    intro e he
    rcases List.mem_map.mp he with ⟨code, hcmem, rfl⟩
    exact ⟨[("code", code), ("label", abilityLabelFor labels code)], rfl⟩
  · intro habs
    have hcodes : codes = [] := by
      rcases habs with h' | h' <;> rw [h'] at hab
      · cases hab
        rfl
      · have : abilityCodes (some Value.vnull) = .ok [] := by decide
        rw [this] at hab
        cases hab
        rfl
    subst hcodes
    rw [habl]
    rfl

/-- Witness for C8 at a concrete record with tags, a pack list and id 5. -/
theorem c8_witness :
    (∃ xs, lookupR ((normalizeCard [] c8goodCard).toOption.getD []) "packs" =
        some (.vlist xs) ∧ Value.vnull ∉ xs) ∧
    normalizeTags (some (.vstr "a, b  c")) = .ok ["a", "b", "c"] := by
  have h := c8_list_fields [] c8goodCard ((normalizeCard [] c8goodCard).toOption.getD [])
    (by decide)
    (by
      intro v hv
      have h2 : lookupR c8goodCard "pack" = some (.vlist [.vint 2]) := by decide
      rw [h2] at hv
      cases hv
      exact ⟨[.vint 2], rfl, by simp⟩)
  exact ⟨h.1, h.2.2.2.2.2.2⟩

theorem replaceL_cons_ne (p r : List Char) (c : Char) (cs : List Char)
    (h : p.head? ≠ some c) :
    replaceL p r (c :: cs) = c :: replaceL p r cs := by
  rw [replaceL, if_neg]
  rintro ⟨hp, hpre⟩
  rcases p with _ | ⟨a, as⟩
  · exact hp rfl
  · simp only [List.isPrefixOf, Bool.and_eq_true, beq_iff_eq] at hpre
    exact h (by simp [hpre.1])

theorem isPrefixOf_append_singleton (qch : Char) :
    ∀ (l p : List Char), qch ∉ p →
      p.isPrefixOf (l ++ [qch]) = p.isPrefixOf l := by
  intro l
  induction l with
  | nil =>
    intro p hq
    rcases p with _ | ⟨a, as⟩
    · rfl
    · have ha : (a == qch) = false :=
        beq_eq_false_iff_ne.mpr (fun h => hq (h ▸ List.mem_cons_self _ _))
    -- (a :: as).isPrefixOf [qch] = (a == qch) && as.isPrefixOf []
      show ((a == qch) && as.isPrefixOf []) = (a :: as).isPrefixOf []
      rw [ha, Bool.false_and]
      rcases as with _ | _ <;> rfl
  | cons c cs ih =>
    intro p hq
    rcases p with _ | ⟨a, as⟩
    · rfl
    · show ((a == c) && as.isPrefixOf (cs ++ [qch])) = ((a == c) && as.isPrefixOf cs)
      rw [ih as (fun hmem => hq (List.mem_cons.mpr (Or.inr hmem)))]

theorem replaceL_append_singleton (p r : List Char) (qch : Char) (hq : qch ∉ p) :
    ∀ (n : Nat) (l : List Char), l.length ≤ n →
      replaceL p r (l ++ [qch]) = replaceL p r l ++ [qch] := by
  intro n
  induction n with
  | zero =>
    intro l hl
    have hnil : l = [] := List.eq_nil_of_length_eq_zero (Nat.le_zero.mp hl)
    subst hnil
    have hside : ¬(p ≠ [] ∧ p.isPrefixOf [qch] = true) := by
      rintro ⟨hp, hpre⟩
      rcases p with _ | ⟨a, as⟩
      · exact hp rfl
      · simp only [List.isPrefixOf, Bool.and_eq_true, beq_iff_eq] at hpre
        rcases as with _ | ⟨b, bs⟩
        · exact hq (by simpa using hpre.1.symm)
        · simpa [List.isPrefixOf] using hpre.2
    simp only [List.nil_append, replaceL]
    rw [if_neg hside]
  | succ k ih =>
    intro l hl
    rcases l with _ | ⟨c, cs⟩
    · exact ih [] (by simp)
    · by_cases hpre : p ≠ [] ∧ p.isPrefixOf (c :: cs) = true
      · have hlen : p.length ≤ (c :: cs).length :=
          ((List.isPrefixOf_iff_prefix.mp hpre.2).length_le)
        have hplen : 0 < p.length := List.length_pos.mpr hpre.1
        rw [show (c :: cs) ++ [qch] = c :: (cs ++ [qch]) from rfl]
        rw [replaceL, if_pos ⟨hpre.1, by
          rw [show c :: (cs ++ [qch]) = (c :: cs) ++ [qch] from rfl]
          rw [isPrefixOf_append_singleton qch (c :: cs) p hq]
          exact hpre.2⟩]
        conv_rhs => rw [replaceL, if_pos hpre]
        rw [show c :: (cs ++ [qch]) = (c :: cs) ++ [qch] from rfl]
        rw [List.drop_append_of_le_length hlen]
        rw [ih ((c :: cs).drop p.length) (by
          simp only [List.length_drop, List.length_cons]
          simp only [List.length_cons] at hl
          omega)]
        rw [List.append_assoc]
      · rw [show (c :: cs) ++ [qch] = c :: (cs ++ [qch]) from rfl]
        rw [replaceL, if_neg (by
          rw [show c :: (cs ++ [qch]) = (c :: cs) ++ [qch] from rfl]
          rw [isPrefixOf_append_singleton qch (c :: cs) p hq]
          exact hpre)]
        conv_rhs => rw [replaceL, if_neg hpre]
        rw [ih cs (by simp only [List.length_cons] at hl; omega)]
        rfl

theorem mem_replaceL (p r : List Char) :
    ∀ (n : Nat) (l : List Char), l.length ≤ n → ∀ x, x ∈ replaceL p r l →
      x ∈ l ∨ x ∈ r := by
  intro n
  induction n with
  | zero =>
    intro l hl x hx
    have hnil : l = [] := List.eq_nil_of_length_eq_zero (Nat.le_zero.mp hl)
    subst hnil
    simp [replaceL] at hx
  | succ k ih =>
    intro l hl x hx
    rcases l with _ | ⟨c, cs⟩
    · simp [replaceL] at hx
    · rw [replaceL] at hx
      by_cases hpre : p ≠ [] ∧ p.isPrefixOf (c :: cs) = true
      · rw [if_pos hpre] at hx
        rcases List.mem_append.mp hx with h1 | h1
        · exact Or.inr h1
        · have hplen : 0 < p.length := List.length_pos.mpr hpre.1
          rcases ih ((c :: cs).drop p.length) (by
            simp only [List.length_drop, List.length_cons]
            simp only [List.length_cons] at hl
            omega) x h1 with h2 | h2
          · exact Or.inl (List.mem_of_mem_drop h2)
          · exact Or.inr h2
      · rw [if_neg hpre] at hx
        rcases List.mem_cons.mp hx with h1 | h1
        · exact Or.inl (h1 ▸ List.mem_cons_self _ _)
        · rcases ih cs (by simp only [List.length_cons] at hl; omega) x h1 with h2 | h2
          · exact Or.inl (List.mem_cons.mpr (Or.inr h2))
          · exact Or.inr h2

theorem repl3_quoted (s : List Char) :
    repl3 (qc :: s ++ [qc]) = qc :: repl3 s ++ [qc] := by
  unfold repl3
  rw [List.cons_append]
  rw [replaceL_cons_ne "true".data "True".data qc (s ++ [qc]) (by decide)]
  rw [replaceL_append_singleton "true".data "True".data qc (by decide) s.length s
    (le_refl _)]
  rw [replaceL_cons_ne "false".data "False".data qc _ (by decide)]
  rw [replaceL_append_singleton "false".data "False".data qc (by decide) _ _ (le_refl _)]
  rw [replaceL_cons_ne "null".data "None".data qc _ (by decide)]
  rw [replaceL_append_singleton "null".data "None".data qc (by decide) _ _ (le_refl _)]
  rw [List.cons_append]

theorem repl3_chars (s : List Char) (hs : ∀ c ∈ s, c ≠ qc ∧ c ≠ '\\') :
    ∀ c ∈ repl3 s, c ≠ qc ∧ c ≠ '\\' := by
  intro c hc
  unfold repl3 at hc
  rcases mem_replaceL _ _ _ _ (le_refl _) c hc with h1 | h1
  · rcases mem_replaceL _ _ _ _ (le_refl _) c h1 with h2 | h2
    · rcases mem_replaceL _ _ _ _ (le_refl _) c h2 with h3 | h3
      · exact hs c h3
      · have : c = 'T' ∨ c = 'r' ∨ c = 'u' ∨ c = 'e' := by simpa using h3
        rcases this with rfl | rfl | rfl | rfl <;> exact ⟨by decide, by decide⟩
    · have : c = 'F' ∨ c = 'a' ∨ c = 'l' ∨ c = 's' ∨ c = 'e' := by simpa using h2
      rcases this with rfl | rfl | rfl | rfl | rfl <;> exact ⟨by decide, by decide⟩
  · have : c = 'N' ∨ c = 'o' ∨ c = 'n' ∨ c = 'e' := by simpa using h1
    rcases this with rfl | rfl | rfl | rfl <;> exact ⟨by decide, by decide⟩

theorem strBody_closed (t : List Char) (rest : List Char)
    (h : ∀ c ∈ t, c ≠ qc ∧ c ≠ '\\') :
    strBody qc (t ++ qc :: rest) = some (t, rest) := by
  induction t with
  | nil =>
    rw [List.nil_append, strBody.eq_def]
    simp
  | cons c cs ih =>
    have hc := h c (List.mem_cons_self _ _)
    rw [List.cons_append, strBody.eq_def]
    dsimp only
    rw [if_neg hc.1, if_neg hc.2]
    rw [ih (fun x hx => h x (List.mem_cons.mpr (Or.inr hx)))]
    rfl

theorem literalParse_quoted (t : List Char) (ht : ∀ c ∈ t, c ≠ qc ∧ c ≠ '\\') :
    literalParse (qc :: t ++ [qc]) = .ok (.vstr (String.mk t)) := by
  unfold literalParse
  have hstep : parseVal (2 * (qc :: t ++ [qc]).length + 2) (qc :: t ++ [qc]) =
      .ok (.vstr (String.mk t), []) := by
    rw [List.cons_append]
    rw [show 2 * (qc :: (t ++ [qc])).length + 2 =
      (2 * (qc :: (t ++ [qc])).length + 1) + 1 from rfl]
    unfold parseVal parseCore
    rw [show List.dropWhile isPySpace (qc :: (t ++ [qc])) = qc :: (t ++ [qc]) by
      rw [List.dropWhile_cons]
      simp +decide]
    dsimp only
    rw [if_pos (show (decide (qc = qc) || decide (qc = '"')) = true by decide)]
    rw [strBody_closed t [] ht]
  rw [hstep]
  simp

/-- C3 counterexample: the text `'true'` denotes the string literal whose
content is `true`, but `_literal_eval` returns the string `True`: the token
replacement applies inside string literals, so their contents are changed. -/
theorem c3_counterexample :
    literal_eval (String.mk (qc :: "true".data ++ [qc])) = .ok (.vstr "True") ∧
    Value.vstr "True" ≠ .vstr "true" := by
  constructor
  · simp +decide [literal_eval, repl3, replaceL]
  · decide

/-- C3 (amended): `_literal_eval` translates the tokens `true`/`false`/`null`
textually over the whole input — string literals included — and then parses
the result: a quoted string evaluates to its content *after* the
replacement, while the bare tokens evaluate to the host booleans and null.
-/
theorem c3_literal_eval :
    (∀ s : String, (∀ c ∈ s.data, c ≠ qc ∧ c ≠ '\\') →
      literal_eval (String.mk (qc :: s.data ++ [qc])) =
        .ok (.vstr (String.mk (repl3 s.data)))) ∧
    literal_eval "true" = .ok (.vbool true) ∧
    literal_eval "false" = .ok (.vbool false) ∧
    literal_eval "null" = .ok .vnull := by
  refine ⟨?_, ?_, ?_, ?_⟩
  · intro s hs
    unfold literal_eval
    rw [show (String.mk (qc :: s.data ++ [qc])).data = qc :: s.data ++ [qc] from rfl]
    rw [repl3_quoted]
    exact literalParse_quoted (repl3 s.data) (repl3_chars s.data hs)
  · simp +decide [literal_eval, repl3, replaceL]
  · simp +decide [literal_eval, repl3, replaceL]
  · simp +decide [literal_eval, repl3, replaceL]

/-- Witness for C3 (amended) at the string literal `'is true'`: the result
is `is True`. -/
theorem c3_witness :
    literal_eval (String.mk (qc :: "is true".data ++ [qc])) =
      .ok (.vstr (String.mk (repl3 "is true".data))) :=
  c3_literal_eval.1 "is true" (by decide)

theorem takeWhile_of_all {p : Char → Bool} :
    ∀ l : List Char, (∀ c ∈ l, p c = true) → l.takeWhile p = l := by
  intro l
  induction l with
  | nil => intro h; rfl
  | cons c cs ih =>
    intro h
    rw [List.takeWhile_cons, h c (List.mem_cons_self _ _)]
    rw [ih (fun x hx => h x (List.mem_cons.mpr (Or.inr hx)))]
    simp

theorem subPL_at_match (pl : List (String × String)) (ident : List Char)
    (hne : ident ≠ []) (hid : ∀ c ∈ ident, isIdentChar c = true) :
    subPackLinkage pl ("packLinkage.".data ++ ident) =
      qc :: plResolve pl ident ++ [qc] := by
  have hcons : "packLinkage.".data ++ ident =
      'p' :: ("ackLinkage.".data ++ ident) := rfl
  rw [hcons]
  simp only [subPackLinkage]
  rw [if_pos (by
    rw [← hcons]
    exact List.isPrefixOf_iff_prefix.mpr (List.prefix_append _ _))]
  rw [show List.drop "packLinkage.".data.length ('p' :: ("ackLinkage.".data ++ ident)) =
      ident by
    rw [← hcons]
    exact List.drop_left _ _]
  rw [takeWhile_of_all ident hid]
  rw [if_neg (by
    rcases ident with _ | _
    · exact absurd rfl hne
    · simp)]
  rw [List.drop_length]
  simp only [subPackLinkage]

theorem subPL_no_match_front (pl : List (String × String)) :
    ∀ (pre rest : List Char),
      (∀ i, i < pre.length →
        "packLinkage.".data.isPrefixOf ((pre ++ rest).drop i) = false) →
      subPackLinkage pl (pre ++ rest) = pre ++ subPackLinkage pl rest := by
  intro pre
  induction pre with
  | nil => intro rest h; simp
  | cons c cs ih =>
    intro rest h
    rw [List.cons_append]
    simp only [subPackLinkage]
    rw [if_neg (by
      have h0 := h 0 (by simp)
      simp only [List.drop_zero, List.cons_append] at h0
      simp [h0])]
    rw [ih rest (fun i hi => by
      have hi1 := h (i + 1) (by simp only [List.length_cons]; omega)
      simpa [List.cons_append] using hi1)]
    rw [List.cons_append]

/-- C5 counterexample: with an *empty* packLinkage mapping, the substitution
step is skipped entirely, so a `packLinkage.FOO` token is left unchanged
instead of being rewritten to `'FOO'`. -/
theorem c5_counterexample :
    packLinkageStep [] "packLinkage.FOO" = "packLinkage.FOO" ∧
    ("packLinkage.FOO" : String) ≠ String.mk (qc :: "FOO".data ++ [qc]) := by
  exact ⟨rfl, by decide⟩

/-- C5 (amended): when the packLinkage mapping is non-empty, every token
`packLinkage.<IDENT>` is rewritten into a single-quoted literal holding the
mapped value (falling back to `<IDENT>` when unmapped); when the mapping is
empty (which is tolerated, not an error), the substitution is skipped and
the text is left entirely unchanged. -/
theorem c5_pack_linkage :
    (∀ s : String, packLinkageStep [] s = s) ∧
    (∀ (pl : List (String × String)) (pre ident : String),
      pl ≠ [] → ident.data ≠ [] → (∀ c ∈ ident.data, isIdentChar c = true) →
      (∀ i, i < pre.data.length →
        "packLinkage.".data.isPrefixOf
          ((pre.data ++ ("packLinkage.".data ++ ident.data)).drop i) = false) →
      packLinkageStep pl (String.mk (pre.data ++ ("packLinkage.".data ++ ident.data))) =
        String.mk (pre.data ++ (qc :: plResolve pl ident.data ++ [qc]))) := by
  constructor
  · intro s
    rfl
  · intro pl pre ident hpl hne hid hpre
    unfold packLinkageStep
    rw [if_neg (by simpa using hpl)]
    have hsub : subPackLinkage pl (pre.data ++ ("packLinkage.".data ++ ident.data)) =
        pre.data ++ (qc :: plResolve pl ident.data ++ [qc]) := by
      rw [subPL_no_match_front pl pre.data _ hpre]
      rw [subPL_at_match pl ident.data hne hid]
    rw [show (String.mk (pre.data ++ ("packLinkage.".data ++ ident.data))).data =
      pre.data ++ ("packLinkage.".data ++ ident.data) from rfl]
    rw [hsub]

/-- Witness for C5 (amended) with the mapping `ABC ↦ Pack One` at a token
preceded by ordinary text. -/
theorem c5_witness :
    packLinkageStep [("ABC", "Pack One")]
        (String.mk ("x = [ ".data ++ ("packLinkage.".data ++ "ABC".data))) =
      String.mk ("x = [ ".data ++
        (qc :: plResolve [("ABC", "Pack One")] "ABC".data ++ [qc])) :=
  c5_pack_linkage.2 [("ABC", "Pack One")] "x = [ " "ABC" (by decide) (by decide)
    (by decide) (by decide)

theorem pySpace_cases {c : Char} (h : isPySpace c = true) :
    c = ' ' ∨ c = '\t' ∨ c = '\n' ∨ c = '\r' ∨ c = '\x0b' ∨ c = '\x0c' := by
  simpa [isPySpace, or_assoc] using h

theorem identStart_not_space {c : Char} (h : isIdentStart c = true) :
    isPySpace c = false := by
  by_contra hc
  have hsp : isPySpace c = true := by simpa using hc
  rcases pySpace_cases hsp with rfl | rfl | rfl | rfl | rfl | rfl <;>
    exact absurd h (by decide)

theorem space_not_identChar {c : Char} (h : isPySpace c = true) :
    isIdentChar c = false := by
  rcases pySpace_cases h with rfl | rfl | rfl | rfl | rfl | rfl <;> decide

theorem takeWhile_append_stop {p : Char → Bool} :
    ∀ (l1 l2 : List Char), (∀ c ∈ l1, p c = true) →
      (∀ c, l2.head? = some c → p c = false) →
      (l1 ++ l2).takeWhile p = l1 := by
  intro l1
  induction l1 with
  | nil =>
    intro l2 h1 h2
    rcases l2 with _ | ⟨d, ds⟩
    · rfl
    · simp only [List.nil_append, List.takeWhile_cons, h2 d rfl]
      rfl
  | cons c cs ih =>
    intro l2 h1 h2
    rw [List.cons_append, List.takeWhile_cons, h1 c (List.mem_cons_self _ _)]
    rw [ih l2 (fun x hx => h1 x (List.mem_cons.mpr (Or.inr hx))) h2]
    simp

theorem dropWhile_append_stop {p : Char → Bool} :
    ∀ (l1 l2 : List Char), (∀ c ∈ l1, p c = true) →
      (∀ c, l2.head? = some c → p c = false) →
      (l1 ++ l2).dropWhile p = l2 := by
  intro l1
  induction l1 with
  | nil =>
    intro l2 h1 h2
    rcases l2 with _ | ⟨d, ds⟩
    · rfl
    · simp only [List.nil_append, List.dropWhile_cons, h2 d rfl]
      rfl
  | cons c cs ih =>
    intro l2 h1 h2
    rw [List.cons_append, List.dropWhile_cons, h1 c (List.mem_cons_self _ _)]
    rw [ih l2 (fun x hx => h1 x (List.mem_cons.mpr (Or.inr hx))) h2]
    simp

theorem tryKeyMatch_exact (ws ident ws2 post : List Char)
    (hws : ∀ x ∈ ws, isPySpace x = true) (hws2 : ∀ x ∈ ws2, isPySpace x = true)
    (hne : ident ≠ [])
    (hstart : ∀ ch, ident.head? = some ch → isIdentStart ch = true)
    (hid : ∀ x ∈ ident, isIdentChar x = true) :
    tryKeyMatch (ws ++ (ident ++ (ws2 ++ ':' :: post))) = some (ws, ident, post) := by
  rcases ident with _ | ⟨i0, irest⟩
  · exact absurd rfl hne
  have hi0 : isIdentStart i0 = true := hstart i0 rfl
  have hstop2 : ∀ c, (ws2 ++ ':' :: post).head? = some c → isIdentChar c = false := by
    intro c hc
    rcases ws2 with _ | ⟨w, ws'⟩
    · simp only [List.nil_append, List.head?_cons, Option.some.injEq] at hc
      subst hc
      decide
    · simp only [List.cons_append, List.head?_cons, Option.some.injEq] at hc
      subst hc
      exact space_not_identChar (hws2 w (List.mem_cons_self _ _))
  unfold tryKeyMatch
  rw [dropWhile_append_stop ws ((i0 :: irest) ++ (ws2 ++ ':' :: post)) hws (by
    intro ch hch
    simp only [List.cons_append, List.head?_cons, Option.some.injEq] at hch
    subst hch
    exact identStart_not_space hi0)]
  rw [takeWhile_append_stop ws ((i0 :: irest) ++ (ws2 ++ ':' :: post)) hws (by
    intro ch hch
    simp only [List.cons_append, List.head?_cons, Option.some.injEq] at hch
    subst hch
    exact identStart_not_space hi0)]
  rw [List.cons_append]
  dsimp only
  rw [if_pos hi0]
  rw [← List.cons_append]
  rw [takeWhile_append_stop (i0 :: irest) (ws2 ++ ':' :: post) hid hstop2]
  rw [List.drop_left]
  rw [dropWhile_append_stop ws2 (':' :: post) hws2 (by
    intro ch hch
    simp only [List.head?_cons, Option.some.injEq] at hch
    subst hch
    decide)]
  rfl

theorem quoteKeys_id : ∀ (l : List Char),
    (∀ i, keyMatchAt (l.drop i) = false) → quoteKeys l = l := by
  intro l
  induction l with
  | nil =>
    intro h
    simp [quoteKeys]
  | cons c cs ih =>
    intro h
    have h0 := h 0
    simp only [List.drop_zero, keyMatchAt] at h0
    simp only [quoteKeys]
    by_cases hc : (c = '{' || c = ',' || c = '[') = true
    · rw [if_pos hc]
      rcases hm : tryKeyMatch cs with _ | res
      · dsimp only
        rw [ih (fun i => by
          have hi := h (i + 1)
          simpa using hi)]
      · exfalso
        rw [hc, hm] at h0
        simp at h0
    · rw [if_neg hc]
      rw [ih (fun i => by
        have hi := h (i + 1)
        simpa using hi)]

theorem quoteKeys_single : ∀ (pre : List Char) (c : Char) (ws ident ws2 post : List Char),
    (c = '{' || c = ',' || c = '[') = true →
    (∀ x ∈ ws, isPySpace x = true) → (∀ x ∈ ws2, isPySpace x = true) →
    ident ≠ [] →
    (∀ ch, ident.head? = some ch → isIdentStart ch = true) →
    (∀ x ∈ ident, isIdentChar x = true) →
    (∀ i, i < pre.length →
      keyMatchAt ((pre ++ c :: (ws ++ (ident ++ (ws2 ++ ':' :: post)))).drop i) = false) →
    quoteKeys (pre ++ c :: (ws ++ (ident ++ (ws2 ++ ':' :: post)))) =
      pre ++ c :: (ws ++ qc :: ident ++ qc :: ':' :: quoteKeys post) := by
  intro pre
  induction pre with
  | nil =>
    intro c ws ident ws2 post hc hws hws2 hne hstart hid hpre
    simp only [List.nil_append]
    simp only [quoteKeys]
    rw [if_pos hc]
    rw [tryKeyMatch_exact ws ident ws2 post hws hws2 hne hstart hid]
    dsimp only
    simp [List.cons_append, List.append_assoc]
  | cons p0 ps ih =>
    intro c ws ident ws2 post hc hws hws2 hne hstart hid hpre
    rw [List.cons_append]
    simp only [quoteKeys]
    have hshift : ∀ i, i < ps.length →
        keyMatchAt ((ps ++ c :: (ws ++ (ident ++ (ws2 ++ ':' :: post)))).drop i) =
          false := by
      intro i hi
      have hi1 := hpre (i + 1) (by simp only [List.length_cons]; omega)
      simpa [List.cons_append] using hi1
    by_cases hp0 : (p0 = '{' || p0 = ',' || p0 = '[') = true
    · rw [if_pos hp0]
      have h0 := hpre 0 (by simp)
      simp only [List.drop_zero, List.cons_append, keyMatchAt] at h0
      rcases hm : tryKeyMatch (ps ++ c :: (ws ++ (ident ++ (ws2 ++ ':' :: post)))) with
        _ | r
      · dsimp only
        rw [ih c ws ident ws2 post hc hws hws2 hne hstart hid hshift]
        rw [List.cons_append]
      · exfalso
        rw [hp0, hm] at h0
        simp at h0
    · rw [if_neg hp0]
      rw [ih c ws ident ws2 post hc hws hws2 hne hstart hid hshift]
      rw [List.cons_append]

theorem keyMatchAt_all_false (l : List Char)
    (h : ∀ i, i < l.length → keyMatchAt (l.drop i) = false) :
    ∀ i, keyMatchAt (l.drop i) = false := by
  intro i
  by_cases hi : i < l.length
  · exact h i hi
  · rw [List.drop_eq_nil_of_le (by omega)]
    rfl

/-- C6 counterexample: inside the string value `'x, b: y'` the fragment
`, b: ` matches `KEY_PATTERN`, so `_quote_object_keys` quotes the `b` even
though it is part of a value, not a key — the input is changed. -/
theorem c6_counterexample :
    quoteKeys c6input = c6output ∧ c6output ≠ c6input := by
  constructor
  · have h1 := quoteKeys_single ['[', qc, 'x'] ',' [' '] ['b'] []
      [' ', 'y', qc, ']'] (by decide) (by decide) (by intro x hx; cases hx)
      (by decide) (by intro ch hch; cases hch; decide) (by decide) (by decide)
    have h2 := quoteKeys_id [' ', 'y', qc, ']']
      (keyMatchAt_all_false _ (by decide))
    rw [show c6input =
      ['[', qc, 'x'] ++ ',' :: ([' '] ++ (['b'] ++ ([] ++ ':' :: [' ', 'y', qc, ']'])))
      from rfl]
    rw [h1, h2]
    rfl
  · decide

/-- C6 (amended): the key-quoting transform wraps in single quotes exactly
the identifier occurrences matching the textual pattern — an identifier
preceded by `{`, `,` or `[` plus optional whitespace and followed by
optional whitespace and a colon — regardless of string-literal context: text
with no such occurrence (in particular already-quoted keys) is left
unchanged, every such occurrence is rewritten, and an occurrence inside a
string value is mis-quoted (the counterexample). -/
theorem c6_quote_object_keys :
    (∀ (l : List Char), (∀ i, keyMatchAt (l.drop i) = false) → quoteKeys l = l) ∧
    (∀ (pre : List Char) (c : Char) (ws ident ws2 post : List Char),
      (c = '{' || c = ',' || c = '[') = true →
      (∀ x ∈ ws, isPySpace x = true) → (∀ x ∈ ws2, isPySpace x = true) →
      ident ≠ [] →
      (∀ ch, ident.head? = some ch → isIdentStart ch = true) →
      (∀ x ∈ ident, isIdentChar x = true) →
      (∀ i, i < pre.length →
        keyMatchAt ((pre ++ c :: (ws ++ (ident ++ (ws2 ++ ':' :: post)))).drop i) =
          false) →
      quoteKeys (pre ++ c :: (ws ++ (ident ++ (ws2 ++ ':' :: post)))) =
        pre ++ c :: (ws ++ qc :: ident ++ qc :: ':' :: quoteKeys post)) :=
  ⟨quoteKeys_id, quoteKeys_single⟩

/-- Witness for C6 (amended): the bare key in `,ab:1` is quoted, and the
already-quoted text `['a': 1]` (no bare-key match) is left unchanged. -/
theorem c6_witness :
    quoteKeys ([] ++ ',' :: ([] ++ ("ab".data ++ ([] ++ ':' :: "1".data)))) =
      [] ++ ',' :: ([] ++ qc :: "ab".data ++ qc :: ':' :: quoteKeys "1".data) ∧
    quoteKeys ('[' :: qc :: 'a' :: qc :: ':' :: " 1]".data) =
      '[' :: qc :: 'a' :: qc :: ':' :: " 1]".data := by
  constructor
  · exact c6_quote_object_keys.2 [] ',' [] "ab".data [] "1".data (by decide)
      (by intro x hx; cases hx) (by intro x hx; cases hx) (by decide)
      (by intro ch hch; cases hch; decide) (by decide)
      (by intro i hi; exact absurd hi (Nat.not_lt_zero i))
  · exact c6_quote_object_keys.1 _ (keyMatchAt_all_false _ (by decide))

theorem resolveField_eq (c : Record) (k : String) (v : Value) (hk : k ≠ "id") :
    resolveField c (k, v) =
      if emptyish (lookupR c k) = true then setKey c k v else c := by
  unfold resolveField
  dsimp only
  rw [if_neg hk]

theorem resolveField_lookup_ne (c : Record) (kv : String × Value) (k : String)
    (h : kv.1 ≠ k) : lookupR (resolveField c kv) k = lookupR c k := by
  unfold resolveField
  by_cases h1 : kv.1 = "id"
  · rw [if_pos h1]
  · rw [if_neg h1]
    by_cases h2 : emptyish (lookupR c kv.1) = true
    · rw [if_pos h2]
      exact lookupR_setKey_ne c kv.1 k kv.2 h
    · rw [if_neg h2]

theorem resolveField_id (c : Record) (kv : String × Value) :
    lookupR (resolveField c kv) "id" = lookupR c "id" := by
  by_cases h1 : kv.1 = "id"
  · unfold resolveField
    rw [if_pos h1]
  · exact resolveField_lookup_ne c kv "id" h1

theorem foldl_resolveField_ne (l : List (String × Value)) :
    ∀ (c : Record) (k : String), (∀ kv ∈ l, kv.1 ≠ k) →
      lookupR (l.foldl resolveField c) k = lookupR c k := by
  induction l with
  | nil => intro c k _; rfl
  | cons kv rest ih =>
    intro c k h
    rw [List.foldl_cons]
    rw [ih (resolveField c kv) k (fun x hx => h x (List.mem_cons.mpr (Or.inr hx)))]
    exact resolveField_lookup_ne c kv k (h kv (List.mem_cons_self _ _))

theorem resolveOne_id (base card : Record) :
    lookupR (resolveOne base card) "id" = lookupR card "id" := by
  unfold resolveOne
  induction base generalizing card with
  | nil => rfl
  | cons kv rest ih =>
    rw [List.foldl_cons, ih (resolveField card kv)]
    exact resolveField_id card kv

theorem lookupR_decomp (r : Record) (k : String) (v : Value)
    (h : lookupR r k = some v) :
    ∃ pre post, r = pre ++ (k, v) :: post ∧ ∀ kv ∈ pre, kv.1 ≠ k := by
  induction r with
  | nil => cases h
  | cons kv rest ih =>
    rcases kv with ⟨a, b⟩
    rw [lookupR_cons] at h
    by_cases ha : a = k
    · rw [if_pos ha] at h
      cases h
      exact ⟨[], rest, by simp [ha], by simp⟩
    · rw [if_neg ha] at h
      obtain ⟨pre, post, heq, hfr⟩ := ih h
      refine ⟨(a, b) :: pre, post, by rw [heq]; rfl, ?_⟩
      intro kv hkv
      rcases List.mem_cons.mp hkv with rfl | hkv2
      · exact ha
      · exact hfr kv hkv2

theorem resolveOne_lookup (base card : Record)
    (hnd : (base.map Prod.fst).Nodup) (k : String) (v : Value)
    (hk : k ≠ "id") (hv : lookupR base k = some v) :
    lookupR (resolveOne base card) k =
      if emptyish (lookupR card k) = true then some v else lookupR card k := by
  obtain ⟨pre, post, rfl, hfr⟩ := lookupR_decomp base k v hv
  have hpost : ∀ kv ∈ post, kv.1 ≠ k := by
    rw [List.map_append, List.map_cons] at hnd
    have h2 := List.Nodup.of_append_right hnd
    have h3 : k ∉ post.map Prod.fst := (List.nodup_cons.mp h2).1
    intro kv hkv hcon
    exact h3 (hcon ▸ List.mem_map_of_mem Prod.fst hkv)
  unfold resolveOne
  rw [List.foldl_append, List.foldl_cons]
  rw [foldl_resolveField_ne post _ k hpost]
  have hc1 : lookupR (pre.foldl resolveField card) k = lookupR card k :=
    foldl_resolveField_ne pre card k hfr
  rw [resolveField_eq _ k v hk, hc1]
  by_cases he : emptyish (lookupR card k) = true
  · rw [if_pos he, if_pos he]
    exact lookupR_setKey_self _ _ _
  · rw [if_neg he, if_neg he]
    exact hc1

theorem resolveGo_done (st : List Record) (i : Nat) (h : ¬ i < st.length) :
    resolveGo st i = .ok st := by
  rw [resolveGo, dif_neg h]

theorem resolveGo_skip (st : List Record) (i : Nat) (h : i < st.length)
    (hr : referTarget (st.get ⟨i, h⟩) = none) :
    resolveGo st i = resolveGo st (i + 1) := by
  conv_lhs => rw [resolveGo]
  rw [dif_pos h]
  dsimp only
  rw [hr]

theorem resolveGo_miss (st : List Record) (i : Nat) (h : i < st.length) (r : Value)
    (hr : referTarget (st.get ⟨i, h⟩) = some r) (hb : findBase st r = none) :
    resolveGo st i = .error "refer_id not found" := by
  rw [resolveGo, dif_pos h]
  dsimp only
  rw [hr]
  dsimp only
  rw [hb]

theorem resolveGo_hit (st : List Record) (i : Nat) (h : i < st.length) (r : Value)
    (base : Record) (hr : referTarget (st.get ⟨i, h⟩) = some r)
    (hb : findBase st r = some base) :
    resolveGo st i = resolveGo (st.set i (resolveOne base (st.get ⟨i, h⟩))) (i + 1) := by
  conv_lhs => rw [resolveGo]
  rw [dif_pos h]
  dsimp only
  rw [hr]
  dsimp only
  rw [hb]

theorem find?_isSome_any {α : Type} (p : α → Bool) :
    ∀ l : List α, (l.find? p).isSome = l.any p := by
  intro l
  induction l with
  | nil => rfl
  | cons a as ih =>
    cases h : p a
    · simp [List.find?, h, ih]
    · simp [List.find?, h]

theorem findBase_isSome_any (st : List Record) (r : Value) :
    (findBase st r).isSome = st.any (fun c => decide (lookupR c "id" = some r)) := by
  unfold findBase
  rw [find?_isSome_any, List.any_reverse]

theorem any_set_congr {α : Type} (p : α → Bool) :
    ∀ (st : List α) (i : Nat) (x : α) (hi : i < st.length),
      p x = p (st.get ⟨i, hi⟩) → (st.set i x).any p = st.any p := by
  intro st
  induction st with
  | nil => intro i x hi; exact absurd hi (by simp)
  | cons a rest ih =>
    intro i x hi hx
    cases i with
    | zero =>
      simp only [List.set_cons_zero, List.any_cons]
      simp only [List.get] at hx
      rw [hx]
    | succ j =>
      simp only [List.set_cons_succ, List.any_cons]
      rw [ih j x (by simpa using hi) (by simpa using hx)]

theorem findBase_set_isSome (st : List Record) (i : Nat) (x : Record)
    (hi : i < st.length) (hx : lookupR x "id" = lookupR (st.get ⟨i, hi⟩) "id")
    (r : Value) : (findBase (st.set i x) r).isSome = (findBase st r).isSome := by
  rw [findBase_isSome_any, findBase_isSome_any]
  exact any_set_congr _ st i x hi (by rw [hx])

theorem resolveGo_ok_iff : ∀ (n : Nat) (st : List Record) (i : Nat),
    st.length - i = n →
    (isOkE (resolveGo st i) = true ↔ allRefsResolve st i) := by
  intro n
  induction n with
  | zero =>
    intro st i hn
    have hge : ¬ i < st.length := by omega
    rw [resolveGo_done st i hge]
    simp only [isOkE, true_iff]
    intro j hj hij r hr
    exact absurd hj (by omega)
  | succ m ih =>
    intro st i hn
    have hi : i < st.length := by omega
    rcases hr : referTarget (st.get ⟨i, hi⟩) with _ | r
    · rw [resolveGo_skip st i hi hr]
      rw [ih st (i + 1) (by omega)]
      constructor
      · intro h j hj hij rr hrr
        rcases Nat.eq_or_lt_of_le hij with heq | hlt
        · exfalso
          subst heq
          have hsame : st.get ⟨i, hj⟩ = st.get ⟨i, hi⟩ := rfl
          rw [hsame, hr] at hrr
          cases hrr
        · exact h j hj (by omega) rr hrr
      · intro h j hj hij rr hrr
        exact h j hj (by omega) rr hrr
    · rcases hb : findBase st r with _ | base
      · rw [resolveGo_miss st i hi r hr hb]
        simp only [isOkE, Bool.false_eq_true, false_iff]
        intro h
        have h2 := h i hi (le_refl i) r hr
        rw [hb] at h2
        simp at h2
      · rw [resolveGo_hit st i hi r base hr hb]
        have hlen : (st.set i (resolveOne base (st.get ⟨i, hi⟩))).length - (i + 1) = m := by
          simp only [List.length_set]
          omega
        rw [ih _ (i + 1) hlen]
        have hidpres : lookupR (resolveOne base (st.get ⟨i, hi⟩)) "id" =
            lookupR (st.get ⟨i, hi⟩) "id" := resolveOne_id base (st.get ⟨i, hi⟩)
        constructor
        · intro h j hj hij rr hrr
          rcases Nat.eq_or_lt_of_le hij with heq | hlt
          · subst heq
            have hsame : st.get ⟨i, hj⟩ = st.get ⟨i, hi⟩ := rfl
            rw [hsame, hr] at hrr
            cases hrr
            rw [hb]
            rfl
          · have hj' : j < (st.set i (resolveOne base (st.get ⟨i, hi⟩))).length := by
              simpa using hj
            have hgetEq : (st.set i (resolveOne base (st.get ⟨i, hi⟩))).get ⟨j, hj'⟩ =
                st.get ⟨j, hj⟩ := by
              show (st.set i (resolveOne base (st.get ⟨i, hi⟩)))[j] = st[j]
              exact List.getElem_set_ne (by omega) hj'
            have h2 := h j hj' (by omega) rr (by rw [hgetEq]; exact hrr)
            rw [findBase_set_isSome st i _ hi hidpres rr] at h2
            exact h2
        · intro h j hj' hij rr hrr
          have hj : j < st.length := by simpa using hj'
          have hgetEq : (st.set i (resolveOne base (st.get ⟨i, hi⟩))).get ⟨j, hj'⟩ =
              st.get ⟨j, hj⟩ := by
            show (st.set i (resolveOne base (st.get ⟨i, hi⟩)))[j] = st[j]
            exact List.getElem_set_ne (by omega) hj'
          rw [hgetEq] at hrr
          have h2 := h j hj (by omega) rr hrr
          rw [findBase_set_isSome st i _ hi hidpres rr]
          exact h2

/-- C1: for every batch, reference resolution finds, for each record with a
set `refer_id`, the base record with that id in the batch (an error exactly
when one is missing), and copies each base field except `id` onto the
referring record iff the referring record's own value is absent, `None`,
`""`, `[]` or `{}` — a non-empty own value is never overwritten.  The third
conjunct shows the batch function applying exactly this copy step on a
two-record batch. -/
theorem c1_reference_resolution (cards : List Record)
    (hids : cards.all (fun c => (lookupR c "id").isSome) = true)
    (base card : Record) (hnd : (base.map Prod.fst).Nodup) :
    (isOkE (resolveReferences cards) = true ↔
      ∀ c ∈ cards, ∀ r, referTarget c = some r → (findBase cards r).isSome = true) ∧
    (∀ k v, k ≠ "id" → lookupR base k = some v →
      lookupR (resolveOne base card) k =
        if emptyish (lookupR card k) = true then some v else lookupR card k) ∧
    (∀ (b c : Record) (rb rc : Value), referTarget b = none →
      lookupR b "id" = some rb → lookupR c "id" = some rc →
      referTarget c = some rb → rb ≠ rc →
      resolveReferences [b, c] = .ok [b, resolveOne b c]) := by
  refine ⟨?_, fun k v hk hv => resolveOne_lookup base card hnd k v hk hv, ?_⟩
  · rw [resolveReferences, if_pos hids]
    rw [resolveGo_ok_iff (cards.length - 0) cards 0 rfl]
    constructor
    · intro h c hc r hr
      obtain ⟨⟨j, hj⟩, rfl⟩ := List.mem_iff_get.mp hc
      exact h j hj (by omega) r hr
    · intro h j hj hij r hr
      exact h (cards.get ⟨j, hj⟩) (cards.get_mem j hj) r hr
  · intro b c rb rc hrb hbid hcid hcref hne
    have hall : ([b, c]).all (fun x => (lookupR x "id").isSome) = true := by
      simp [hbid, hcid]
    rw [resolveReferences, if_pos hall]
    have hfind : findBase [b, c] rb = some b := by
      unfold findBase
      have hrev : ([b, c]).reverse = [c, b] := by rfl
      rw [hrev]
      have hpc : (fun x => decide (lookupR x "id" = some rb)) c = false := by
        simp only [hcid, decide_eq_false_iff_not]
        intro hcon
        exact hne (Option.some.inj hcon).symm
      have hpb : (fun x => decide (lookupR x "id" = some rb)) b = true := by
        simp [hbid]
      simp [List.find?, hpc, hpb]
    rw [resolveGo_skip [b, c] 0 (by simp) (by simpa using hrb)]
    rw [resolveGo_hit [b, c] 1 (by simp) rb b (by simpa using hcref) hfind]
    rw [resolveGo_done _ 2 (by simp)]
    rfl

/-- Witness for C1: a two-card batch in which the second card refers to the
first; its empty `text` is backfilled with the base text. -/
theorem c1_witness :
    lookupR (resolveOne c1base c1card) "text" = some (.vstr "Base text") ∧
    resolveReferences [c1base, c1card] = .ok [c1base, resolveOne c1base c1card] := by
  have h := c1_reference_resolution [c1base, c1card] (by decide) c1base c1card (by decide)
  constructor
  · have h2 := h.2.1 "text" (.vstr "Base text") (by decide) (by decide)
    rw [h2, if_pos (by decide)]
  · exact h.2.2 c1base c1card (.vint 1) (.vint 2) (by decide) (by decide) (by decide)
      (by decide) (by decide)

theorem dlStep_mem_writes (fetch : String → FetchResult) (force : Bool)
    (fs : List String) (st : DLState) (card : Record) (st1 : DLState)
    (h : dlStep fetch force fs st card = .ok st1) :
    ∀ w, w ∈ st.writes → w ∈ st1.writes := by
  intro w hw
  unfold dlStep at h
  repeat' split at h
  all_goals try cases h
  all_goals try simp only [writeFile, addError, List.mem_append]
  all_goals first
    | exact hw
    | exact Or.inl hw

theorem dlRun_mem_writes (fetch : String → FetchResult) (force : Bool)
    (fs : List String) : ∀ (cs : List Record) (st st2 : DLState),
    dlRun fetch force fs st cs = .ok st2 → ∀ w, w ∈ st.writes → w ∈ st2.writes := by
  intro cs
  induction cs with
  | nil => intro st st2 h w hw; cases h; exact hw
  | cons c rest ih =>
    intro st st2 h w hw
    rw [dlRun] at h
    rcases hstep : dlStep fetch force fs st c with e | st1 <;> rw [hstep] at h
    · cases h
    · exact ih st1 st2 h w (dlStep_mem_writes fetch force fs st c st1 hstep w hw)

theorem dlStep_inv (fetch : String → FetchResult) (force : Bool) (fs : List String)
    (pb : String) (hpb : fetch placeholderURL = .ok pb)
    (st : DLState) (card : Record) (st1 : DLState)
    (h : dlStep fetch force fs st card = .ok st1) (hinv : phInv pb st) :
    phInv pb st1 := by
  obtain ⟨h1, h2, h3⟩ := hinv
  unfold dlStep at h
  repeat' split at h
  all_goals try cases h
  all_goals simp_all [phInv, writeFile, addError]
  all_goals exact fun b hb => (h3 b hb).1

theorem dlRun_inv (fetch : String → FetchResult) (force : Bool) (fs : List String)
    (pb : String) (hpb : fetch placeholderURL = .ok pb) :
    ∀ (cs : List Record) (st st2 : DLState),
    dlRun fetch force fs st cs = .ok st2 → phInv pb st → phInv pb st2 := by
  intro cs
  induction cs with
  | nil => intro st st2 h hinv; cases h; exact hinv
  | cons c rest ih =>
    intro st st2 h hinv
    rw [dlRun] at h
    rcases hstep : dlStep fetch force fs st c with e | st1 <;> rw [hstep] at h
    · cases h
    · exact ih st1 st2 h (dlStep_inv fetch force fs pb hpb st c st1 hstep hinv)

theorem dlStep_404 (fetch : String → FetchResult) (force : Bool) (fs : List String)
    (pb : String) (hpb : fetch placeholderURL = .ok pb)
    (st : DLState) (hinv : phInv pb st) (card : Record) (iv : Value) (n : Int)
    (fn : String)
    (hid : lookupR card "id" = some iv) (hn : idOrZero (some iv) = .ok n)
    (himg : lookupR card "image" = some (.vstr fn))
    (hskip : (fileExists fs st fn && !force) = false)
    (h404 : fetch (imageURL (n + 1)) = .httpError 404) :
    ∃ st1, dlStep fetch force fs st card = .ok st1 ∧ (fn, pb) ∈ st1.writes := by
  unfold dlStep
  simp only [hid, hn, himg, hskip, h404, Bool.false_eq_true, if_false]
  rcases hph : st.placeholder with _ | pb0
  · simp only [hpb]
    exact ⟨_, rfl, by simp [writeFile]⟩
  · obtain ⟨hpb0, _⟩ := hinv.2.2 pb0 hph
    subst hpb0
    exact ⟨_, rfl, by simp [writeFile]⟩

/-- Counterexample to C4 as stated: with the placeholder endpoint down, a run
over two missing images fetches the placeholder twice — nothing is cached on
a failed fetch, so the next 404 re-attempts it. -/
theorem c4_counterexample :
    downloadImages c4fetchBad false [] [c4cardA, c4cardB] =
      .ok ⟨none, 2, [], 0, ["placeholder download failed: down",
                            "placeholder download failed: down"]⟩ := by
  decide

/-- C4 (amended): provided the placeholder endpoint serves its bytes
successfully, a whole download run fetches the placeholder at most once; a
card whose image fetch returns 404 and that is not skipped as already
present gets the placeholder bytes written as its own file; and a file once
written stays written for the remainder of the run.  (When the placeholder
fetch itself fails the code records a warning, writes nothing for that card,
and re-attempts the fetch at the next 404.) -/
theorem c4_placeholder (fetch : String → FetchResult) (force : Bool)
    (fs : List String) (cards : List Record) (pb : String) (st : DLState)
    (hpb : fetch placeholderURL = .ok pb)
    (hrun : downloadImages fetch force fs cards = .ok st) :
    st.placeholderFetches ≤ 1 ∧
    (∀ st0 card iv n fn, phInv pb st0 →
      lookupR card "id" = some iv → idOrZero (some iv) = .ok n →
      lookupR card "image" = some (.vstr fn) →
      (fileExists fs st0 fn && !force) = false →
      fetch (imageURL (n + 1)) = .httpError 404 →
      ∃ st1, dlStep fetch force fs st0 card = .ok st1 ∧ (fn, pb) ∈ st1.writes) ∧
    (∀ st0 st2 cs w, dlRun fetch force fs st0 cs = .ok st2 →
      w ∈ st0.writes → w ∈ st2.writes) := by
  refine ⟨?_, ?_, ?_⟩
  · have hinv0 : phInv pb ⟨none, 0, [], 0, []⟩ :=
      ⟨Nat.zero_le 1, fun _ => rfl, fun b hb => by cases hb⟩
    exact (dlRun_inv fetch force fs pb hpb cards _ st hrun hinv0).1
  · intro st0 card iv n fn hinv hid hn himg hskip h404
    exact dlStep_404 fetch force fs pb hpb st0 hinv card iv n fn hid hn himg hskip h404
  · intro st0 st2 cs w h hw
    exact dlRun_mem_writes fetch force fs cs st0 st2 h w hw

/-- Witness for C4: over a working placeholder endpoint, the two-card run
ends with the placeholder fetched exactly once and both files written. -/
theorem c4_witness :
    c4fetchGood placeholderURL = .ok "PH" ∧
    downloadImages c4fetchGood false [] [c4cardA, c4cardB] = .ok c4stGood ∧
    c4stGood.placeholderFetches ≤ 1 :=
  ⟨by decide, by decide,
    (c4_placeholder c4fetchGood false [] [c4cardA, c4cardB] "PH" c4stGood
      (by decide) (by decide)).1⟩

theorem update_data_ok_shape (js : String) (fetch : String → FetchResult)
    (fs : List String) (skipImages forceImages : Bool) (now : String)
    (out : RunOutcome)
    (h : update_data js fetch fs skipImages forceImages now = .ok out) :
    ∃ packs labels linkage cards dl,
      parse_pack_list js = .ok packs ∧
      parse_ability_labels js = .ok labels ∧
      parse_pack_linkage js = .ok linkage ∧
      parse_card_list js labels linkage = .ok cards ∧
      (if skipImages then Except.ok (⟨none, 0, [], 0, []⟩ : DLState)
       else downloadImages fetch forceImages fs cards) = .ok dl ∧
      out.payload = buildPayload cards packs labels
        (buildMetadata cards.length dl.downloaded now) ∧
      out.download = dl := by
  unfold update_data at h
  rcases hp : parse_pack_list js with e | packs
  · rw [hp] at h; cases h
  simp only [hp] at h
  rcases ha : parse_ability_labels js with e | labels
  · rw [ha] at h; cases h
  simp only [ha] at h
  rcases hl : parse_pack_linkage js with e | linkage
  · rw [hl] at h; cases h
  simp only [hl] at h
  rcases hc : parse_card_list js labels linkage with e | cards
  · rw [hc] at h; cases h
  simp only [hc] at h
  rcases hd : (if skipImages then Except.ok (⟨none, 0, [], 0, []⟩ : DLState)
      else downloadImages fetch forceImages fs cards) with e | dl
  · rw [hd] at h; cases h
  simp only [hd] at h
  cases h
  exact ⟨packs, labels, linkage, cards, dl, rfl, rfl, rfl, hc, hd, rfl, rfl⟩

/-- C2: `update_data` writes the catalog only after every parse step has
succeeded.  A missing pack, abilityLabel or cardData region makes the run
fail; a successful run implies all four parses succeeded; and the payload of
a successful run is assembled exactly from those parse results (so no
partial catalog is ever produced). -/
theorem c2_no_partial_catalog (js : String) (fetch : String → FetchResult)
    (fs : List String) (skipImages forceImages : Bool) (now : String) :
    ((searchPack js.data = none ∨ searchAbility js.data = none ∨
        searchCardData js.data = none) →
      isOkE (update_data js fetch fs skipImages forceImages now) = false) ∧
    (isOkE (update_data js fetch fs skipImages forceImages now) = true →
      ∃ packs labels linkage cards,
        parse_pack_list js = .ok packs ∧
        parse_ability_labels js = .ok labels ∧
        parse_pack_linkage js = .ok linkage ∧
        parse_card_list js labels linkage = .ok cards) ∧
    (∀ out, update_data js fetch fs skipImages forceImages now = .ok out →
      ∃ packs labels linkage cards, ∃ dl : DLState,
        parse_pack_list js = .ok packs ∧
        parse_ability_labels js = .ok labels ∧
        parse_pack_linkage js = .ok linkage ∧
        parse_card_list js labels linkage = .ok cards ∧
        out.payload = buildPayload cards packs labels
          (buildMetadata cards.length dl.downloaded now)) := by
  refine ⟨?_, ?_, ?_⟩
  · intro hnone
    rcases hu : update_data js fetch fs skipImages forceImages now with e | out
    · rfl
    · exfalso
      obtain ⟨packs, labels, linkage, cards, dl, hp, ha, hl, hc, _, _, _⟩ :=
        update_data_ok_shape js fetch fs skipImages forceImages now out hu
      rcases hnone with hn | hn | hn
      · unfold parse_pack_list at hp
        rw [hn] at hp
        cases hp
      · unfold parse_ability_labels at ha
        rw [hn] at ha
        cases ha
      · unfold parse_card_list at hc
        rw [hn] at hc
        cases hc
  · intro hok
    rcases hu : update_data js fetch fs skipImages forceImages now with e | out
    · rw [hu] at hok; cases hok
    · obtain ⟨packs, labels, linkage, cards, dl, hp, ha, hl, hc, _, _, _⟩ :=
        update_data_ok_shape js fetch fs skipImages forceImages now out hu
      exact ⟨packs, labels, linkage, cards, hp, ha, hl, hc⟩
  · intro out hu
    obtain ⟨packs, labels, linkage, cards, dl, hp, ha, hl, hc, _, hpay, _⟩ :=
      update_data_ok_shape js fetch fs skipImages forceImages now out hu
    exact ⟨packs, labels, linkage, cards, dl, hp, ha, hl, hc, hpay⟩

/-- Witness for C2: a script whose abilityLabel region is missing makes the
whole run fail before any output is assembled. -/
theorem c2_witness :
    searchAbility jsC2.data = none ∧
    isOkE (update_data jsC2 (fun _ => .fail "net") [] true false "t") = false :=
  ⟨by decide,
    (c2_no_partial_catalog jsC2 (fun _ => .fail "net") [] true false "t").1
      (Or.inr (Or.inl (by decide)))⟩
